import Mathlib

/-!
Shallow embedding of the mflags command-line parsing and dispatch library
(files mflags.go, dispatcher.go, completion.go of mirendev/mflags).

Go's in-place mutation is modelled by explicit state passing: every function
that mutates a `FlagSet` or `Dispatcher` returns the updated value.  Go maps
are modelled as association lists whose insert operation replaces an existing
binding (the lists built by the registration API therefore have unique keys).
Pointer aliasing between `flags` (long-name map) and `shortMap` is modelled by
storing every registered `Flag` in a `regs` list and keeping indices into that
list in both maps.  Go `int` is modelled as unbounded `Int` (no claim touches
integer overflow).  Byte-level string operations are modelled on the character
lists of Lean strings; the inputs of all claims are ASCII, where Go's
byte-wise and Lean's character-wise views coincide (except where noted,
`utf8ByteSize` is used when Go's byte length is semantically relevant).
-/

namespace MFlags

/-! ### String helpers mirroring the Go standard library -/

/-- List-level prefix test, used to model `strings.HasPrefix`. -/
def listPre : List Char → List Char → Bool
  | [], _ => true
  | p :: ps, cs =>
    match cs with
    | [] => false
    | c :: cs2 => p = c && listPre ps cs2

/-- Model of `strings.HasPrefix s p`. -/
def strStartsWith (s p : String) : Bool := listPre p.data s.data

/-- Character count of a string; coincides with Go's byte `len` on ASCII. -/
def strLen (s : String) : Nat := s.data.length

/-- Drop the first `n` characters (Go slicing `s[n:]` for ASCII prefixes). -/
def strDropChars (s : String) (n : Nat) : String := ⟨s.data.drop n⟩

/-- Model of `strings.TrimPrefix s p`. -/
def trimPre (s p : String) : String :=
  if strStartsWith s p then strDropChars s (strLen p) else s

/-- Model of `strings.Join l sep`. -/
def strJoin (sep : String) : List String → String
  | [] => ""
  | [s] => s
  | s :: rest => s ++ sep ++ strJoin sep rest

/-- The whitespace class used by Go's `strings.Fields` (`unicode.IsSpace`,
restricted to the Latin-1 range it special-cases). -/
def goIsSpace (c : Char) : Bool :=
  c = ' ' || c = '\t' || c = '\n' || c = '\x0b' || c = '\x0c' || c = '\r' ||
    c = '\u0085' || c = '\u00A0'

/-- Accumulator-style splitter behind `goFields`. -/
def fieldsAux (acc : List Char) : List Char → List String
  | [] => if acc.isEmpty then [] else [⟨acc.reverse⟩]
  | c :: cs =>
    if goIsSpace c then
      if acc.isEmpty then fieldsAux [] cs else ⟨acc.reverse⟩ :: fieldsAux [] cs
    else fieldsAux (c :: acc) cs

/-- Model of `strings.Fields`: maximal runs of non-space characters. -/
def goFields (s : String) : List String := fieldsAux [] s.data

/-- Split a character list at the first `'='`, if any
(`strings.SplitN(name, "=", 2)` after a `strings.Contains` test). -/
def splitEq : List Char → Option (List Char × List Char)
  | [] => none
  | c :: cs =>
    if c = '=' then some ([], cs)
    else (splitEq cs).map (fun p => (c :: p.1, p.2))

/-- Accumulator-style splitter for `strings.Split(val, ",")`. -/
def splitCommaAux (acc : List Char) : List Char → List String
  | [] => [⟨acc.reverse⟩]
  | c :: cs =>
    if c = ',' then ⟨acc.reverse⟩ :: splitCommaAux [] cs
    else splitCommaAux (c :: acc) cs

/-- Concatenation of the images of `f`, used to model append-in-loop. -/
def listFlatAll (f : α → List β) : List α → List β
  | [] => []
  | x :: xs => f x ++ listFlatAll f xs

/-! ### Association lists modelling Go maps -/

/-- Lookup in an association list (models Go map indexing; the lists built by
the registration API have unique keys). -/
def assocFind [DecidableEq α] : List (α × β) → α → Option β
  | [], _ => none
  | kv :: rest, k' => if kv.1 = k' then some kv.2 else assocFind rest k'

/-- Insert-or-replace (models Go map assignment `m[k] = v`). -/
def assocPut [DecidableEq α] (l : List (α × β)) (k : α) (v : β) : List (α × β) :=
  if l.any (fun kv => kv.1 = k) then
    l.map (fun kv => if kv.1 = k then (k, v) else kv)
  else l ++ [(k, v)]

/-! ### Models of `strconv` conversions

Range (overflow) failures are not modelled: integers are unbounded here and no
claim concerns values outside int64 range. -/

/-- Go `%q`-style quoting as used in `strconv` error messages (exotic escapes
are not needed for the inputs of any claim). -/
def quoteGo (s : String) : String := "\"" ++ s ++ "\""

/-- Model of `strconv.ParseBool`. -/
def goParseBool (s : String) : Except String Bool :=
  if s = "1" || s = "t" || s = "T" || s = "true" || s = "TRUE" || s = "True" then
    .ok true
  else if s = "0" || s = "f" || s = "F" || s = "false" || s = "FALSE" || s = "False" then
    .ok false
  else
    .error ("strconv.ParseBool: parsing " ++ quoteGo s ++ ": invalid syntax")

/-- All characters are decimal digits. -/
def allDigits : List Char → Bool
  | [] => true
  | c :: cs => c.isDigit && allDigits cs

/-- Decimal value of a digit list. -/
def digitsToNat (acc : Nat) : List Char → Nat
  | [] => acc
  | c :: cs => digitsToNat (acc * 10 + (c.toNat - '0'.toNat)) cs

/-- Shared syntax of `strconv.Atoi` / `strconv.ParseInt(s, 10, 64)`:
an optional sign followed by at least one decimal digit. -/
def goParseIntCore (s : String) : Option Int :=
  match s.data with
  | [] => none
  | '+' :: ds =>
    if ds ≠ [] && allDigits ds then some (digitsToNat 0 ds) else none
  | '-' :: ds =>
    if ds ≠ [] && allDigits ds then some (-(digitsToNat 0 ds : Int)) else none
  | ds =>
    if allDigits ds then some (digitsToNat 0 ds) else none

/-- Model of `strconv.Atoi` (used by `intValue.Set`). -/
def goAtoi (s : String) : Except String Int :=
  match goParseIntCore s with
  | some n => .ok n
  | none => .error ("strconv.Atoi: parsing " ++ quoteGo s ++ ": invalid syntax")

/-- Model of `strconv.ParseInt(s, 10, 64)` (used by `setFieldValue`). -/
def goParseInt64 (s : String) : Except String Int :=
  match goParseIntCore s with
  | some n => .ok n
  | none => .error ("strconv.ParseInt: parsing " ++ quoteGo s ++ ": invalid syntax")

/-! ### The Value interface -/

/-- The typed flag values of mflags (`boolValue`, `stringValue`, `intValue`,
`stringArrayValue`).  `durationValue` is omitted: no claim involves durations
and `time.ParseDuration` is external to the claims under study. -/
inductive FlagValue where
  | bool (b : Bool)
  | str (s : String)
  | int (i : Int)
  | strArray (xs : List String)
deriving DecidableEq

/-- `Value.IsBool`: true exactly for `boolValue`. -/
def FlagValue.isBool : FlagValue → Bool
  | .bool _ => true
  | _ => false

/-- `Value.Set`: parse `s` into the variant, or return the conversion error
detail.  A failed `Set` leaves the stored value unchanged (as in Go, where the
setter only assigns on success). -/
def FlagValue.set : FlagValue → String → Except String FlagValue
  | .bool _, s => (goParseBool s).map .bool
  | .str _, s => .ok (.str s)
  | .int _, s => (goAtoi s).map .int
  | .strArray _, s => .ok (.strArray (splitCommaAux [] s.data))

/-- `Value.String`: render the stored value. -/
def FlagValue.render : FlagValue → String
  | .bool b => if b then "true" else "false"
  | .str s => s
  | .int i => toString i
  | .strArray xs => strJoin "," xs

/-! ### Flag, PositionalField, FlagSet -/

/-- A registered flag (`Flag` in mflags.go).  `short = none` models the Go
zero rune. -/
structure FlagReg where
  name : String
  short : Option Char
  usage : String
  val : FlagValue
  defValue : String
deriving DecidableEq

/-- Placeholder used with `List.getD`; never reached for indices produced by
the registration API. -/
def FlagReg.dflt : FlagReg :=
  { name := "", short := none, usage := "", val := .bool false, defValue := "" }

/-- A positional-argument binding (`PositionalField`): the bound storage is
modelled by `val`. -/
structure PosField where
  name : String
  val : FlagValue
deriving DecidableEq

/-- The `FlagSet` state.  `regs` holds every flag ever registered (modelling
the heap objects); `nameMap`/`shortMap` hold indices into `regs`, modelling
the two Go maps of `*Flag` pointers.  `restVal`/`unknownVal` model the slices
pointed to by `restField`/`unknownField`, with `hasRestField`/
`hasUnknownField` modelling pointer non-nilness. -/
structure FlagSet where
  name : String
  regs : List FlagReg
  nameMap : List (String × Nat)
  shortMap : List (Char × Nat)
  args : List String
  parsed : Bool
  hasRestField : Bool
  restVal : List String
  posFields : List (Nat × PosField)
  allowUnknownFlags : Bool
  unknownFlags : List String
  hasUnknownField : Bool
  unknownVal : List String
deriving DecidableEq

/-- `NewFlagSet`. -/
def NewFlagSet (name : String) : FlagSet :=
  { name := name, regs := [], nameMap := [], shortMap := [], args := [],
    parsed := false, hasRestField := false, restVal := [], posFields := [],
    allowUnknownFlags := false, unknownFlags := [], hasUnknownField := false,
    unknownVal := [] }

/-- Write a new value into registered flag `idx` (a `Value.Set` that
succeeded; visible through both maps, as with Go pointer aliasing). -/
def FlagSet.setRegVal (f : FlagSet) (idx : Nat) (v : FlagValue) : FlagSet :=
  { f with regs := f.regs.set idx { f.regs.getD idx FlagReg.dflt with val := v } }

/-- `FlagSet.Var`: register a flag under its long name (when nonempty) and
short character (when present). -/
def FlagSet.Var (f : FlagSet) (value : FlagValue) (name : String)
    (short : Option Char) (usage : String) : FlagSet :=
  let idx := f.regs.length
  let reg : FlagReg :=
    { name := name, short := short, usage := usage, val := value,
      defValue := value.render }
  { f with
    regs := f.regs ++ [reg]
    nameMap := if name ≠ "" then assocPut f.nameMap name idx else f.nameMap
    shortMap :=
      match short with
      | some c => assocPut f.shortMap c idx
      | none => f.shortMap }

/-- `FlagSet.BoolVar`: `Var` is called with the fresh variable's zero value and
the default is assigned afterwards, exactly as in `BoolVar`. -/
def FlagSet.BoolVar (f : FlagSet) (name : String) (short : Option Char)
    (value : Bool) (usage : String) : FlagSet :=
  let f := f.Var (.bool false) name short usage
  f.setRegVal (f.regs.length - 1) (.bool value)

/-- `FlagSet.StringVar`. -/
def FlagSet.StringVar (f : FlagSet) (name : String) (short : Option Char)
    (value : String) (usage : String) : FlagSet :=
  let f := f.Var (.str "") name short usage
  f.setRegVal (f.regs.length - 1) (.str value)

/-- `FlagSet.IntVar`. -/
def FlagSet.IntVar (f : FlagSet) (name : String) (short : Option Char)
    (value : Int) (usage : String) : FlagSet :=
  let f := f.Var (.int 0) name short usage
  f.setRegVal (f.regs.length - 1) (.int value)

/-- `StringPosVar`: bind a string positional at `position`.  (Negative
positions would make the Go code panic at parse time; positions are
naturals here.) -/
def FlagSet.StringPos (f : FlagSet) (name : String) (position : Nat)
    (value : String) : FlagSet :=
  { f with posFields := assocPut f.posFields position ⟨name, .str value⟩ }

/-- `IntPosVar`. -/
def FlagSet.IntPos (f : FlagSet) (name : String) (position : Nat)
    (value : Int) : FlagSet :=
  { f with posFields := assocPut f.posFields position ⟨name, .int value⟩ }

/-- `BoolPosVar`. -/
def FlagSet.BoolPos (f : FlagSet) (name : String) (position : Nat)
    (value : Bool) : FlagSet :=
  { f with posFields := assocPut f.posFields position ⟨name, .bool value⟩ }

/-- `FlagSet.Rest`: bind a rest-capture slice (reset to empty at bind time). -/
def FlagSet.Rest (f : FlagSet) : FlagSet :=
  { f with hasRestField := true, restVal := [] }

/-- `FlagSet.AllowUnknownFlags`. -/
def FlagSet.AllowUnknownFlags (f : FlagSet) (allow : Bool) : FlagSet :=
  { f with allowUnknownFlags := allow }

/-- The `unknown:"true"` struct-tag binding from `FromStruct`: records the
capture slice and switches unknown-flag mode on. -/
def FlagSet.withUnknownField (f : FlagSet) : FlagSet :=
  { f with hasUnknownField := true, allowUnknownFlags := true }

/-- Current value of the flag registered under long name `n`. -/
def FlagSet.flagVal (f : FlagSet) (n : String) : Option FlagValue :=
  (assocFind f.nameMap n).map (fun i => (f.regs.getD i FlagReg.dflt).val)

/-- Current value of the positional field at index `p`. -/
def FlagSet.posLookup (f : FlagSet) (p : Nat) : Option PosField :=
  assocFind f.posFields p

/-! ### Parse errors

The Go code wraps the sentinel errors `ErrUnknownFlag`, `ErrMissingValue`,
`ErrInvalidValue` (and `ErrHelp`, which is declared but never produced by
`Parse`) with the offending token via `fmt.Errorf`; positional conversion
failures are fresh errors.  The constructors keep the structured content and
`ParseError.render` reproduces the Go message text. -/
inductive ParseError where
  | helpRequested
  | unknownFlagLong (name : String)
  | unknownFlagShort (c : Char)
  | missingValueLong (name : String)
  | missingValueShort (c : Char)
  | invalidValueLong (name : String) (detail : String)
  | invalidValueShort (c : Char) (detail : String)
  | invalidPositional (pos : Nat) (detail : String)
deriving DecidableEq

/-- The Go error message for each error. -/
def ParseError.render : ParseError → String
  | .helpRequested => "help requested"
  | .unknownFlagLong n => "unknown flag: --" ++ n
  | .unknownFlagShort c => "unknown flag: -" ++ ⟨[c]⟩
  | .missingValueLong n => "flag needs an argument: --" ++ n
  | .missingValueShort c => "flag needs an argument: -" ++ ⟨[c]⟩
  | .invalidValueLong n d => "invalid flag value: --" ++ n ++ ": " ++ d
  | .invalidValueShort c d => "invalid flag value: -" ++ (⟨[c]⟩ : String) ++ ": " ++ d
  | .invalidPositional p d => "invalid value for position " ++ toString p ++ ": " ++ d

/-- `ErrHelp` recogniser. -/
def ParseError.isHelpErr : ParseError → Bool
  | .helpRequested => true
  | _ => false

/-! ### The token scan -/

/-- Outcome of processing one flag token (`parseLongFlag` /
`parseShortFlags`): how many input tokens were consumed beyond the current
one, whether the sticky unknown-capture absorbed the remaining input, or an
error.  The carried `FlagSet` is the (possibly mutated) state. -/
inductive FlagStep where
  | ok0 (fs : FlagSet)
  | ok1 (fs : FlagSet)
  | absorb (fs : FlagSet)
  | err (fs : FlagSet) (e : ParseError)
deriving DecidableEq

/-- The state carried by a step outcome. -/
def FlagStep.fsOf : FlagStep → FlagSet
  | .ok0 f => f
  | .ok1 f => f
  | .absorb f => f
  | .err f _ => f

/-- `parseLongFlag`: `nameRaw` is the token with the leading `--` stripped,
`curTok` the original token, `rest` the tokens after it.  Mirrors
mflags.go lines 484-525. -/
def FlagSet.parseLongFlag (f : FlagSet) (nameRaw : String) (curTok : String)
    (rest : List String) : FlagStep :=
  let parts :=
    match splitEq nameRaw.data with
    | some (a, b) => ((⟨a⟩ : String), (⟨b⟩ : String), true)
    | none => (nameRaw, "", false)
  let name := parts.1
  let value := parts.2.1
  let hasValue := parts.2.2
  match assocFind f.nameMap name with
  | none =>
    if f.allowUnknownFlags then
      .absorb { f with unknownFlags := f.unknownFlags ++ (curTok :: rest) }
    else .err f (.unknownFlagLong name)
  | some idx =>
    let fl := f.regs.getD idx FlagReg.dflt
    if fl.val.isBool then
      let value := if hasValue then value else "true"
      match fl.val.set value with
      | .ok v => .ok0 (f.setRegVal idx v)
      | .error d => .err f (.invalidValueLong name d)
    else
      if hasValue then
        match fl.val.set value with
        | .ok v => .ok0 (f.setRegVal idx v)
        | .error d => .err f (.invalidValueLong name d)
      else
        match rest with
        | [] => .err f (.missingValueLong name)
        | v :: _ =>
          match fl.val.set v with
          | .ok vv => .ok1 (f.setRegVal idx vv)
          | .error d => .err f (.invalidValueLong name d)

/-- `parseShortFlags`, character by character over the cluster (mflags.go
lines 527-576).  `curTok` is the original cluster token (with the `-`),
`rest` the tokens after it. -/
def FlagSet.parseShortAux (f : FlagSet) (curTok : String) (rest : List String) :
    List Char → FlagStep
  | [] => .ok0 f
  | r :: tl =>
    match assocFind f.shortMap r with
    | none =>
      if f.allowUnknownFlags then
        .absorb { f with unknownFlags := f.unknownFlags ++ (curTok :: rest) }
      else .err f (.unknownFlagShort r)
    | some idx =>
      let fl := f.regs.getD idx FlagReg.dflt
      if fl.val.isBool then
        match fl.val.set "true" with
        | .ok v => (f.setRegVal idx v).parseShortAux curTok rest tl
        | .error d => .err f (.invalidValueShort r d)
      else
        match tl with
        | c2 :: _ =>
          let nextBlocks :=
            match assocFind f.shortMap c2 with
            | some idx2 => !(f.regs.getD idx2 FlagReg.dflt).val.isBool
            | none => false
          if nextBlocks then .err f (.missingValueShort r)
          else
            match fl.val.set ⟨tl⟩ with
            | .ok v => .ok0 (f.setRegVal idx v)
            | .error d => .err f (.invalidValueShort r d)
        | [] =>
          match rest with
          | v :: _ =>
            match fl.val.set v with
            | .ok vv => .ok1 (f.setRegVal idx vv)
            | .error d => .err f (.invalidValueShort r d)
          | [] => .err f (.missingValueShort r)

/-- The main token loop of `Parse` (mflags.go lines 432-460).  A `--` token
appends everything after it to `args` and stops; long and short flag tokens
are delegated to the step functions; anything else is a literal argument.
The unreachable `ok1`-with-empty-rest cases end the scan like the exhausted
loop would. -/
def FlagSet.scanTokens (f : FlagSet) : List String → FlagSet × Option ParseError
  | [] => (f, none)
  | arg :: rest =>
    if arg = "--" then ({ f with args := f.args ++ rest }, none)
    else if strStartsWith arg "--" then
      match f.parseLongFlag (strDropChars arg 2) arg rest with
      | .ok0 f' => f'.scanTokens rest
      | .ok1 f' =>
        match rest with
        | [] => (f', none)
        | _ :: rest2 => f'.scanTokens rest2
      | .absorb f' => (f', none)
      | .err f' e => (f', some e)
    else if strStartsWith arg "-" && decide (strLen arg > 1) then
      match f.parseShortAux arg rest (strDropChars arg 1).data with
      | .ok0 f' => f'.scanTokens rest
      | .ok1 f' =>
        match rest with
        | [] => (f', none)
        | _ :: rest2 => f'.scanTokens rest2
      | .absorb f' => (f', none)
      | .err f' e => (f', some e)
    else FlagSet.scanTokens { f with args := f.args ++ [arg] } rest

/-- `setFieldValue` (mflags.go lines 602-643) restricted to the field kinds a
positional can have in this model; a string-list positional hits the
`default:` branch ("unsupported type"). -/
def setFieldValue (cur : FlagValue) (value : String) : Except String FlagValue :=
  match cur with
  | .str _ => .ok (.str value)
  | .bool _ => (goParseBool value).map .bool
  | .int _ => (goParseInt64 value).map .int
  | .strArray _ => .error "unsupported type: []string"

/-- Write a converted value into the positional field at index `p` (Go writes
through the `reflect.Value` into the bound variable). -/
def FlagSet.setPosVal (f : FlagSet) (p : Nat) (v : FlagValue) : FlagSet :=
  { f with posFields :=
      f.posFields.map (fun kv => if kv.1 = p then (p, { kv.2 with val := v }) else kv) }

/-- The positional-binding loop of `Parse` (mflags.go lines 462-469), over a
snapshot of `posFields`.  Go ranges over a map in unspecified order; the model
iterates the stored list in order — every claim proved below is either
order-independent or stated for the unique relevant entry. -/
def FlagSet.processPos (f : FlagSet) : List (Nat × PosField) → FlagSet × Option ParseError
  | [] => (f, none)
  | (p, fld) :: rest =>
    if p < f.args.length then
      match setFieldValue fld.val (f.args.getD p "") with
      | .ok v => (f.setPosVal p v).processPos rest
      | .error d => (f, some (.invalidPositional p d))
    else f.processPos rest

/-- The scan phase of `Parse`: the mutable results of the previous parse
(`args`, `unknownFlags`) are reset before scanning (mflags.go lines 428-430). -/
def FlagSet.scanPhase (f : FlagSet) (arguments : List String) :
    FlagSet × Option ParseError :=
  FlagSet.scanTokens { f with parsed := true, args := [], unknownFlags := [] } arguments

/-- Second closing assignment of a successful `Parse` (mflags.go lines
477-479): write `unknownFlags` through the unknown-capture pointer, when
bound. -/
def FlagSet.finishUnknown (f3 : FlagSet) : FlagSet :=
  if f3.hasUnknownField then { f3 with unknownVal := f3.unknownFlags } else f3

/-- The closing assignments of a successful `Parse` (mflags.go lines
471-479): write `args` through the rest-capture pointer and `unknownFlags`
through the unknown-capture pointer, when bound. -/
def FlagSet.finishAssign (f2 : FlagSet) : FlagSet :=
  FlagSet.finishUnknown (if f2.hasRestField then { f2 with restVal := f2.args } else f2)

/-- `FlagSet.Parse` (mflags.go lines 427-482): reset, scan, bind positionals,
then on success assign the rest-capture and unknown-capture slices. -/
def FlagSet.Parse (f : FlagSet) (arguments : List String) :
    FlagSet × Option ParseError :=
  match f.scanPhase arguments with
  | (f1, some e) => (f1, some e)
  | (f1, none) =>
    match f1.processPos f1.posFields with
    | (f2, some e) => (f2, some e)
    | (f2, none) => (f2.finishAssign, none)

/-! ### Dispatcher (dispatcher.go)

A `Command` is modelled by its observable data: its `FlagSet`, its usage
string, and an identity tag (`id`) standing for the Go function value of its
`Run` handler, so that replacement of registrations is observable. -/
structure Cmd where
  id : Nat
  fs : FlagSet
  usage : String
deriving DecidableEq

/-- `CommandEntry`. -/
structure CommandEntry where
  path : String
  command : Cmd
  usage : String
deriving DecidableEq

/-- `Dispatcher`: the `commands` Go map is an association list with unique
keys maintained by `Dispatch`. -/
structure Dispatcher where
  name : String
  commands : List (String × CommandEntry)
deriving DecidableEq

/-- `NewDispatcher`. -/
def NewDispatcher (name : String) : Dispatcher := { name := name, commands := [] }

/-- `normalizeCommandPath`: split into whitespace-separated fields and rejoin
with single spaces. -/
def normalizeCommandPath (path : String) : String := strJoin " " (goFields path)

/-- `Dispatcher.Dispatch` (dispatcher.go lines 128-137). -/
def Dispatcher.Dispatch (d : Dispatcher) (path : String) (cmd : Cmd) : Dispatcher :=
  let normalizedPath := normalizeCommandPath path
  let entry : CommandEntry :=
    { path := normalizedPath, command := cmd, usage := cmd.usage }
  { d with commands := assocPut d.commands normalizedPath entry }

/-- `Dispatcher.GetCommand`. -/
def Dispatcher.GetCommand (d : Dispatcher) (path : String) : Option Cmd :=
  (assocFind d.commands (normalizeCommandPath path)).map (fun e => e.command)

/-- `Dispatcher.GetCommandEntry`. -/
def Dispatcher.GetCommandEntry (d : Dispatcher) (path : String) : Option CommandEntry :=
  assocFind d.commands (normalizeCommandPath path)

/-- `Dispatcher.HasCommand`. -/
def Dispatcher.HasCommand (d : Dispatcher) (path : String) : Bool :=
  (assocFind d.commands (normalizeCommandPath path)).isSome

/-- `isHelpFlag` (dispatcher.go lines 341-343). -/
def isHelpFlag (flag : String) : Bool := flag = "-h" || flag = "--help"

/-! #### VisitAll (completion.go lines 18-39)

`VisitAll` iterates the values of the long-name map `flags` (flags registered
only under a short character are therefore not visited), de-duplicates by
pointer identity, and sorts by `Name`.  Every flag object is registered under
at most one long name, so names are distinct among the visited flags and the
sort result is the unique name-ordered list. -/

/-- De-duplicate register indices, keeping first occurrences (pointer-identity
de-duplication of `VisitAll`). -/
def dedupNatsAux (seen : List Nat) : List Nat → List Nat
  | [] => []
  | n :: rest =>
    if seen.contains n then dedupNatsAux seen rest
    else n :: dedupNatsAux (n :: seen) rest

/-- Byte-lexicographic string comparison (`flags[i].Name < flags[j].Name`;
UTF-8 byte order agrees with code-point order). -/
def charListLt : List Char → List Char → Bool
  | [], [] => false
  | [], _ :: _ => true
  | _ :: _, [] => false
  | a :: as, b :: bs => if a < b then true else if b < a then false else charListLt as bs

/-- String version of `charListLt`. -/
def strLtB (a b : String) : Bool := charListLt a.data b.data

/-- Insert into a name-sorted flag list. -/
def insertByName (r : FlagReg) : List FlagReg → List FlagReg
  | [] => [r]
  | x :: xs => if strLtB r.name x.name then r :: x :: xs else x :: insertByName r xs

/-- Sort flags by name (insertion sort; `sort.Slice` is unstable but the
visited names are distinct, so the sorted list is unique). -/
def sortByName : List FlagReg → List FlagReg
  | [] => []
  | x :: xs => insertByName x (sortByName xs)

/-- The flags visited by `VisitAll`, in visiting order. -/
def FlagSet.visitAllFlags (f : FlagSet) : List FlagReg :=
  sortByName ((dedupNatsAux [] (f.nameMap.map (fun kv => kv.2))).map
    (fun i => f.regs.getD i FlagReg.dflt))

/-- The match test of the validation closure (dispatcher.go line 315):
`(len(flagName) == 1 && f.Short == rune(flagName[0])) || f.Name == flagName`.
`len` is Go's byte length, hence `utf8ByteSize`. -/
def flagNameMatches (flagName : String) (fl : FlagReg) : Bool :=
  (flagName.utf8ByteSize = 1 &&
    (match flagName.data with
     | [c] => fl.short = some c
     | _ => false))
  || fl.name = flagName

/-- One tentatively-skipped flag token of the interspersed scan
(`flagInfo` in `findCommandWithInterspersedFlags`). -/
structure FlagInfo where
  flag : String
  value : String
  hasValue : Bool
  index : Nat
deriving DecidableEq

/-- The body of the validation loop for one skipped item (dispatcher.go lines
309-328): visit all long-named flags, recording whether any matches and
falsifying `valid` when a matching flag is boolean while the item was assumed
to carry a value; an unmatched non-help token also falsifies `valid`. -/
def checkOneFlag (fs : FlagSet) (fi : FlagInfo) (valid : Bool) : Bool :=
  let flagName := trimPre (trimPre fi.flag "--") "-"
  let res := fs.visitAllFlags.foldl
    (fun (p : Bool × Bool) fl =>
      if flagNameMatches flagName fl then
        (true, if fi.hasValue && fl.val.isBool then false else p.2)
      else p)
    (false, valid)
  if !res.1 && !isHelpFlag fi.flag then false else res.2

/-- The validation pass over all skipped items (dispatcher.go lines 302-328):
items strictly after the command boundary are left to `Parse`. -/
def validateSkipped (fs : FlagSet) (skipped : List FlagInfo) (lastIdx : Int) : Bool :=
  skipped.foldl
    (fun valid fi =>
      if (fi.index : Int) > lastIdx then valid else checkOneFlag fs fi valid)
    true

/-- The classification scan of `findCommandWithInterspersedFlags`
(dispatcher.go lines 217-266): split the input into potential command words
(with their original indices) and skipped flag items, deciding tentatively
whether a flag token consumes the following token as its value.  The
following non-flag token is treated as a command word instead when appending
it to the words collected so far yields a string prefix of some registered
path. -/
def Dispatcher.interScan (d : Dispatcher) (commandParts : List String)
    (indices : List Nat) (skipped : List FlagInfo) (idx : Nat) :
    List String → List String × List Nat × List FlagInfo
  | [] => (commandParts, indices, skipped)
  | [arg] =>
    if strStartsWith arg "-" then
      (commandParts, indices,
        skipped ++ [{ flag := arg, value := "", hasValue := false, index := idx }])
    else (commandParts ++ [arg], indices ++ [idx], skipped)
  | arg :: next :: rest2 =>
    if strStartsWith arg "-" then
      let nextIsCommand :=
        !strStartsWith next "-" &&
          (let testPath := normalizeCommandPath (strJoin " " (commandParts ++ [next]))
           d.commands.any (fun kv => strStartsWith kv.1 testPath))
      if nextIsCommand then
        d.interScan commandParts indices
          (skipped ++ [{ flag := arg, value := "", hasValue := false, index := idx }])
          (idx + 1) (next :: rest2)
      else if !strStartsWith next "-" then
        d.interScan commandParts indices
          (skipped ++ [{ flag := arg, value := next, hasValue := true, index := idx }])
          (idx + 2) rest2
      else
        d.interScan commandParts indices
          (skipped ++ [{ flag := arg, value := "", hasValue := false, index := idx }])
          (idx + 1) (next :: rest2)
    else
      d.interScan (commandParts ++ [arg]) (indices ++ [idx]) skipped (idx + 1)
        (next :: rest2)

/-- The boundary index for the candidate of `commandParts.take (k+1)`
(dispatcher.go lines 277-279): the original index of the last command word,
`-1` when out of range. -/
def lastIdxAt (indices : List Nat) (k : Nat) : Int :=
  if k + 1 ≤ indices.length then ((indices.getD k 0 : Nat) : Int) else -1

/-- Reassemble the argument sub-vector for a matched candidate
(dispatcher.go lines 283-298): skipped items at or before the boundary,
each flag followed by its tagged value, then all original tokens strictly
after the boundary. -/
def reassemble (skipped : List FlagInfo) (lastIdx : Int) (args : List String) :
    List String :=
  listFlatAll (fun fi => fi.flag :: (if fi.hasValue then [fi.value] else []))
      (skipped.filter (fun fi => (fi.index : Int) ≤ lastIdx))
    ++ (if 0 ≤ lastIdx ∧ lastIdx + 1 < (args.length : Int) then
          args.drop (lastIdx + 1).toNat
        else [])

/-- The candidate loop of `findCommandWithInterspersedFlags` (dispatcher.go
lines 269-334): `k+1` is the prefix length currently tried, counting down. -/
def Dispatcher.tryPrefixes (d : Dispatcher) (args : List String)
    (commandParts : List String) (indices : List Nat) (skipped : List FlagInfo) :
    Nat → Option CommandEntry × List String
  | 0 => (none, args)
  | k + 1 =>
    let testPath := normalizeCommandPath (strJoin " " (commandParts.take (k + 1)))
    match assocFind d.commands testPath with
    | some entry =>
      let lastIdx := lastIdxAt indices k
      let fullArgs := reassemble skipped lastIdx args
      if validateSkipped entry.command.fs skipped lastIdx then (some entry, fullArgs)
      else d.tryPrefixes args commandParts indices skipped k
    | none => d.tryPrefixes args commandParts indices skipped k

/-- `findCommandWithInterspersedFlags` (dispatcher.go lines 204-338). -/
def Dispatcher.findCommandWithInterspersedFlags (d : Dispatcher)
    (args : List String) : Option CommandEntry × List String :=
  let scanRes := d.interScan [] [] [] 0 args
  d.tryPrefixes args scanRes.1 scanRes.2.1 scanRes.2.2 scanRes.1.length

/-! #### Execute -/

/-- The explicit completion-request flags checked by `HandleCompletion`
(dispatcher.go lines 530-545). -/
def completionFlagTokens : List String :=
  ["--complete-bash", "--complete-zsh", "--generate-bash-completion",
   "--generate-zsh-completion"]

/-- Argument-based completion detection of `HandleCompletion`.  The
environment probe for `COMP_LINE` is I/O and is modelled as the variable
being unset. -/
def isCompletionRequest (args : List String) : Bool :=
  match args with
  | [] => false
  | a :: _ => completionFlagTokens.contains a

/-- Help-token detection of `Execute` (dispatcher.go lines 151-157). -/
def hasHelpToken (args : List String) : Bool :=
  args.any (fun a => a = "-h" || a = "--help" || a = "help")

/-- The observable outcome of `Dispatcher.Execute`: which side effect runs.
`ran` is the only outcome in which the command's `Run` handler is invoked;
`parseFailed e` models the wrapped return
`fmt.Errorf("error parsing flags: %w", e)`. -/
inductive ExecResult where
  | completionHandled
  | generalHelp
  | commandHelp (path : String)
  | unknownCommand (args : List String)
  | parseFailed (e : ParseError)
  | ran (path : String) (fs : FlagSet) (leftover : List String)
deriving DecidableEq

/-- `Dispatcher.Execute` (dispatcher.go lines 140-183). -/
def Dispatcher.Execute (d : Dispatcher) (args : List String) : ExecResult :=
  if isCompletionRequest args then .completionHandled
  else if args.length = 0 then .generalHelp
  else
    let hasHelp := hasHelpToken args
    match d.findCommandWithInterspersedFlags args with
    | (none, _) => if hasHelp then .generalHelp else .unknownCommand args
    | (some entry, allArgs) =>
      if hasHelp then .commandHelp entry.path
      else
        match entry.command.fs.Parse allArgs with
        | (_, some e) => .parseFailed e
        | (fs, none) => .ran entry.path fs fs.args

/-! ### Concrete fixtures used by the claim instances below -/

/-- Boolean `verbose`/`v` with unknown-capture mode on (property P7). -/
def fsUnknownCapture : FlagSet :=
  ((NewFlagSet "t").BoolVar "verbose" (some 'v') false "verbose output").AllowUnknownFlags true

/-- Two non-nullary short flags `a` and `b` (property P4). -/
def fsTwoValueShorts : FlagSet :=
  ((NewFlagSet "t").StringVar "alpha" (some 'a') "" "").StringVar "beta" (some 'b') "" ""

/-- Positional fields `Command@0`, `Target@1`, `Count@2 (int)` (property P8). -/
def fsPositionals : FlagSet :=
  (((NewFlagSet "t").StringPos "Command" 0 "").StringPos "Target" 1 "").IntPos "Count" 2 0

/-- An int positional together with unknown-capture mode. -/
def fsIntPosCapture : FlagSet :=
  ((NewFlagSet "t").IntPos "count" 0 0).AllowUnknownFlags true

/-- A single boolean `verbose`/`v` flag. -/
def fsVerbose : FlagSet := (NewFlagSet "t").BoolVar "verbose" (some 'v') false ""

/-- A schema with no flags at all. -/
def fsEmpty : FlagSet := NewFlagSet "t"

/-- A non-nullary `name` flag plus bound rest- and unknown-capture slices that
already hold values from before the parse under study. -/
def fsRestPrefilled : FlagSet :=
  { ((NewFlagSet "t").StringVar "name" none "" "").Rest.withUnknownField with
      restVal := ["old"], unknownVal := ["prev"] }

/-- Commands for the longest-prefix fixture (property P5). -/
def cmdFoo : Cmd := { id := 1, fs := NewFlagSet "foo", usage := "" }

/-- See `cmdFoo`. -/
def cmdFooBar : Cmd := { id := 2, fs := NewFlagSet "foo bar", usage := "" }

/-- See `cmdFoo`. -/
def cmdFooBarBaz : Cmd := { id := 3, fs := NewFlagSet "foo bar baz", usage := "" }

/-- Paths `"foo"`, `"foo bar"`, `"foo bar baz"` registered (property P5). -/
def dThree : Dispatcher :=
  (((NewDispatcher "app").Dispatch "foo" cmdFoo).Dispatch "foo bar" cmdFooBar).Dispatch
    "foo bar baz" cmdFooBarBaz

/-- The flag schema of the `"foo bar"` command in the interspersed-help test:
boolean `verbose`/`v` and non-nullary `config`/`C`. -/
def fsBarCmd : FlagSet :=
  ((NewFlagSet "bar").BoolVar "verbose" (some 'v') false "verbose output").StringVar
    "config" (some 'C') "" "config file path"

/-- The `"foo bar"` command (property P6). -/
def cmdBar : Cmd := { id := 6, fs := fsBarCmd, usage := "Execute the bar subcommand" }

/-- Dispatcher with only `"foo bar"` registered (property P6). -/
def dFooBar : Dispatcher := (NewDispatcher "myapp").Dispatch "foo bar" cmdBar

/-- A command whose schema has a boolean flag `host` with short character
`h` — the short character of the universal help token. -/
def fsHostBool : FlagSet := (NewFlagSet "bar").BoolVar "host" (some 'h') false ""

/-- See `fsHostBool`. -/
def cmdHost : Cmd := { id := 9, fs := fsHostBool, usage := "" }

/-- Dispatcher with `"foo"` registered to `cmdHost`. -/
def dHost : Dispatcher := (NewDispatcher "app").Dispatch "foo" cmdHost

/-- A dispatcher with no commands registered. -/
def dEmpty : Dispatcher := NewDispatcher "app"

/-- State components untouched by the token scan. -/
def auxFrame (f g : FlagSet) : Prop :=
  g.posFields = f.posFields ∧ g.restVal = f.restVal ∧ g.unknownVal = f.unknownVal ∧
    g.hasRestField = f.hasRestField ∧ g.hasUnknownField = f.hasUnknownField

/-- State components untouched by the positional-binding loop. -/
def ppFrame (f g : FlagSet) : Prop :=
  g.restVal = f.restVal ∧ g.unknownVal = f.unknownVal ∧
    g.hasRestField = f.hasRestField ∧ g.hasUnknownField = f.hasUnknownField ∧
    g.args = f.args ∧ g.regs = f.regs

/-- The long name a `--token` is looked up under: the part of the token after
`--` and before the first `=` (mirrors the destructuring at the start of
`parseLongFlag`). -/
def longFlagName (tok : String) : String :=
  match splitEq (strDropChars tok 2).data with
  | some (a, _) => ⟨a⟩
  | none => strDropChars tok 2

/-- The map entry for `"foo bar"` in `dFooBar`. -/
def entryBar : CommandEntry :=
  { path := "foo bar", command := cmdBar, usage := "Execute the bar subcommand" }

/-- Claim-level acceptance test for one skipped flag item against the matched
command's schema: among the `VisitAll`-visible (long-named) flags, the item
must not match any boolean flag while being tagged as carrying a value, and
must either match some visible flag or — only when it matches none — be a
universal help token. -/
def passFlagB (fs : FlagSet) (fi : FlagInfo) : Bool :=
  let flagName := trimPre (trimPre fi.flag "--") "-"
  let visited := fs.visitAllFlags
  (!(fi.hasValue &&
      visited.any (fun fl => flagNameMatches flagName fl && fl.val.isBool))) &&
    (visited.any (flagNameMatches flagName) || isHelpFlag fi.flag)

/-- The map entry for `"foo"` in `dHost`. -/
def entryHost : CommandEntry := { path := "foo", command := cmdHost, usage := "" }

/-- Descending counter list `[n-1, ..., 0]`, used to phrase "longest prefix
first" declaratively (counter `k` stands for the prefix of length `k+1`). -/
def descRange : Nat → List Nat
  | 0 => []
  | k + 1 => k :: descRange k

/-- First hit of `g` over a counter list. -/
def firstSome (g : Nat → Option α) : List Nat → Option α
  | [] => none
  | k :: ks =>
    match g k with
    | some r => some r
    | none => firstSome g ks

/-- Claim-level view of one candidate prefix: the prefix of length `k+1` is
accepted iff it is registered and its validation passes; the reassembled
sub-vector accompanies it. -/
def candidateAt (d : Dispatcher) (args commandParts : List String)
    (indices : List Nat) (skipped : List FlagInfo) (k : Nat) :
    Option (CommandEntry × List String) :=
  match assocFind d.commands
      (normalizeCommandPath (strJoin " " (commandParts.take (k + 1)))) with
  | some entry =>
    if validateSkipped entry.command.fs skipped (lastIdxAt indices k) then
      some (entry, reassemble skipped (lastIdxAt indices k) args)
    else none
  | none => none

/-- The claim's description of the resolver: scan, then take the first
(longest) candidate prefix that is registered and validates, with the
reassembled sub-vector; report not-found with the original tokens
otherwise. -/
def Dispatcher.resolveSpec (d : Dispatcher) (args : List String) :
    Option CommandEntry × List String :=
  let scanRes := d.interScan [] [] [] 0 args
  match firstSome (candidateAt d args scanRes.1 scanRes.2.1 scanRes.2.2)
      (descRange scanRes.1.length) with
  | some r => (some r.1, r.2)
  | none => (none, args)

/-- Step outcome is frame-preserving and never carries `ErrHelp`. -/
def stepOk (f : FlagSet) (s : FlagStep) : Prop :=
  auxFrame f s.fsOf ∧ ∀ f' e, s = .err f' e → e.isHelpErr = false

/-- Scan result is frame-preserving and never carries `ErrHelp`. -/
def scanOk (f : FlagSet) (r : FlagSet × Option ParseError) : Prop :=
  auxFrame f r.1 ∧ ∀ e, r.2 = some e → e.isHelpErr = false

/-! ### Theorems -/

theorem assocFind_mapReplace [DecidableEq α] (l : List (α × β)) (k : α) (v : β)
    (h : l.any (fun kv => kv.1 = k) = true) :
    assocFind (l.map (fun kv => if kv.1 = k then (k, v) else kv)) k = some v := by
  induction l with
  | nil => simp at h
  | cons hd tl ih =>
    by_cases hk : hd.1 = k
    · simp [assocFind, hk]
    · simp only [List.any_cons, Bool.or_eq_true, decide_eq_true_eq] at h
      rcases h with h | h
      · exact absurd h hk
      · simp [assocFind, hk, ih h]

theorem assocFind_appendOne [DecidableEq α] (l : List (α × β)) (k : α) (v : β)
    (h : l.any (fun kv => kv.1 = k) = false) :
    assocFind (l ++ [(k, v)]) k = some v := by
  induction l with
  | nil => simp [assocFind]
  | cons hd tl ih =>
    simp only [List.any_cons, Bool.or_eq_false_iff, decide_eq_false_iff_not] at h
    simp [assocFind, h.1, ih h.2]

theorem assocFind_put [DecidableEq α] (l : List (α × β)) (k : α) (v : β) :
    assocFind (assocPut l k v) k = some v := by
  unfold assocPut
  by_cases h : l.any (fun kv => kv.1 = k) = true
  · simp [h, assocFind_mapReplace l k v h]
  · simp only [Bool.not_eq_true] at h
    simp [h, assocFind_appendOne l k v h]

theorem auxFrame_refl (f : FlagSet) : auxFrame f f := ⟨rfl, rfl, rfl, rfl, rfl⟩

theorem auxFrame_trans {f g h : FlagSet} (h1 : auxFrame f g) (h2 : auxFrame g h) :
    auxFrame f h := by
  obtain ⟨a1, a2, a3, a4, a5⟩ := h1
  obtain ⟨b1, b2, b3, b4, b5⟩ := h2
  refine ⟨?_, ?_, ?_, ?_, ?_⟩ <;> simp only [*]

theorem setRegVal_auxFrame (f : FlagSet) (idx : Nat) (v : FlagValue) :
    auxFrame f (f.setRegVal idx v) := ⟨rfl, rfl, rfl, rfl, rfl⟩

theorem stepOk_congl {f g : FlagSet} {s : FlagStep} (h : auxFrame f g)
    (hs : stepOk g s) : stepOk f s :=
  ⟨auxFrame_trans h hs.1, hs.2⟩

theorem parseLongFlag_stepOk (f : FlagSet) (nr ct : String) (rest : List String) :
    stepOk f (f.parseLongFlag nr ct rest) := by
  unfold FlagSet.parseLongFlag
  cases h : splitEq nr.data with
  | none =>
    simp only [h]
    repeat' split
    all_goals refine ⟨?_, ?_⟩
    all_goals first
      | (simp [FlagStep.fsOf, FlagSet.setRegVal, auxFrame]; done)
      | (intro f' e he; simp only [FlagStep.err.injEq] at he
         rcases he with ⟨h1, h2⟩; subst h2; simp [ParseError.isHelpErr])
  | some ab =>
    simp only [h]
    repeat' split
    all_goals refine ⟨?_, ?_⟩
    all_goals first
      | (simp [FlagStep.fsOf, FlagSet.setRegVal, auxFrame]; done)
      | (intro f' e he; simp only [FlagStep.err.injEq] at he
         rcases he with ⟨h1, h2⟩; subst h2; simp [ParseError.isHelpErr])

theorem stepOk_ok0 (f g : FlagSet) (h : auxFrame f g) : stepOk f (.ok0 g) :=
  ⟨h, by intro f' e he; simp at he⟩

theorem stepOk_ok1 (f g : FlagSet) (h : auxFrame f g) : stepOk f (.ok1 g) :=
  ⟨h, by intro f' e he; simp at he⟩

theorem stepOk_absorb (f g : FlagSet) (h : auxFrame f g) : stepOk f (.absorb g) :=
  ⟨h, by intro f' e he; simp at he⟩

theorem stepOk_err (f : FlagSet) (e : ParseError) (h : e.isHelpErr = false) :
    stepOk f (.err f e) := by
  refine ⟨auxFrame_refl f, ?_⟩
  intro f' e' he
  simp only [FlagStep.err.injEq] at he
  rcases he with ⟨h1, h2⟩
  subst h2
  exact h

theorem auxFrame_unknown (f : FlagSet) (u : List String) :
    auxFrame f { f with unknownFlags := u } := ⟨rfl, rfl, rfl, rfl, rfl⟩

theorem parseShortAux_stepOk (ct : String) (rest : List String) :
    ∀ (cs : List Char) (f : FlagSet), stepOk f (f.parseShortAux ct rest cs) := by
  intro cs
  induction cs with
  | nil =>
    intro f
    exact stepOk_ok0 f f (auxFrame_refl f)
  | cons r tl ih =>
    intro f
    unfold FlagSet.parseShortAux
    cases hfind : assocFind f.shortMap r with
    | none =>
      simp only [hfind]
      split
      · exact stepOk_absorb f _ (auxFrame_unknown f _)
      · exact stepOk_err f _ (by rfl)
    | some idx =>
      simp only [hfind]
      by_cases hbool : (f.regs.getD idx FlagReg.dflt).val.isBool = true
      · simp only [hbool, if_true]
        cases hset : (f.regs.getD idx FlagReg.dflt).val.set "true" with
        | ok v =>
          simp only [hset]
          exact stepOk_congl (setRegVal_auxFrame f idx v) (ih _)
        | error d =>
          simp only [hset]
          exact stepOk_err f _ (by rfl)
      · simp only [hbool, if_false]
        cases tl with
        | cons c2 tl2 =>
          simp only []
          by_cases hblock : (match assocFind f.shortMap c2 with
            | some idx2 => !(f.regs.getD idx2 FlagReg.dflt).val.isBool
            | none => false) = true
          · rw [if_pos hblock]
            exact stepOk_err f _ (by rfl)
          · rw [if_neg hblock]
            cases hset : (f.regs.getD idx FlagReg.dflt).val.set ⟨c2 :: tl2⟩ with
            | ok v =>
              simp only [hset]
              exact stepOk_ok0 f _ (setRegVal_auxFrame f idx v)
            | error d =>
              simp only [hset]
              exact stepOk_err f _ (by rfl)
        | nil =>
          cases rest with
          | cons v rest2 =>
            cases hset : (f.regs.getD idx FlagReg.dflt).val.set v with
            | ok vv =>
              simp only [hset]
              exact stepOk_ok1 f _ (setRegVal_auxFrame f idx vv)
            | error d =>
              simp only [hset]
              exact stepOk_err f _ (by rfl)
          | nil =>
            exact stepOk_err f _ (by rfl)

theorem scanOk_congl {f g : FlagSet} {r : FlagSet × Option ParseError}
    (h : auxFrame f g) (hr : scanOk g r) : scanOk f r :=
  ⟨auxFrame_trans h hr.1, hr.2⟩

theorem stepFrame_of_eq {f g : FlagSet} {s : FlagStep} (hs : stepOk f s)
    (h : s.fsOf = g) : auxFrame f g := h ▸ hs.1

theorem scanOk_none_pair (f f1 : FlagSet) (hf : auxFrame f f1) :
    scanOk f (f1, none) :=
  ⟨hf, fun _ h => Option.noConfusion h⟩

theorem scanOk_err_pair (f f1 : FlagSet) (e : ParseError) (hf : auxFrame f f1)
    (he : e.isHelpErr = false) : scanOk f (f1, some e) :=
  ⟨hf, fun _ h => (Option.some.inj h) ▸ he⟩

theorem scanTokens_scanOk (f : FlagSet) (l : List String) :
    scanOk f (f.scanTokens l) := by
  induction f, l using FlagSet.scanTokens.induct with
  | case1 f =>
    exact ⟨auxFrame_refl f, by intro e he; simp [FlagSet.scanTokens] at he⟩
  | case2 f tail =>
    refine ⟨?_, by intro e he; simp [FlagSet.scanTokens] at he⟩
    simp only [FlagSet.scanTokens]
    exact ⟨rfl, rfl, rfl, rfl, rfl⟩
  | case3 f v tail h1 h2 f1 hstep ih =>
    simp only [FlagSet.scanTokens, h1, h2, hstep, if_true, if_false]
    exact scanOk_congl (stepFrame_of_eq (parseLongFlag_stepOk f (strDropChars v 2) v tail) (by simp [hstep, FlagStep.fsOf])) ih
  | case4 f v h1 h2 f1 hstep =>
    simp only [FlagSet.scanTokens, h1, h2, hstep, if_true, if_false, ite_false]
    exact scanOk_none_pair f f1
      (stepFrame_of_eq (parseLongFlag_stepOk f (strDropChars v 2) v []) (by simp [hstep, FlagStep.fsOf]))
  | case5 f v h1 h2 f1 v1 tail hstep ih =>
    simp only [FlagSet.scanTokens, h1, h2, hstep, if_true, if_false, ite_false]
    exact scanOk_congl
      (stepFrame_of_eq (parseLongFlag_stepOk f (strDropChars v 2) v (v1 :: tail)) (by simp [hstep, FlagStep.fsOf])) ih
  | case6 f v tail h1 h2 f1 hstep =>
    simp only [FlagSet.scanTokens, h1, h2, hstep, if_true, if_false, ite_false]
    exact scanOk_none_pair f f1
      (stepFrame_of_eq (parseLongFlag_stepOk f (strDropChars v 2) v tail) (by simp [hstep, FlagStep.fsOf]))
  | case7 f v tail h1 h2 f1 e hstep =>
    simp only [FlagSet.scanTokens, h1, h2, hstep, if_true, if_false, ite_false]
    exact scanOk_err_pair f f1 e
      (stepFrame_of_eq (parseLongFlag_stepOk f (strDropChars v 2) v tail) (by simp [hstep, FlagStep.fsOf]))
      ((parseLongFlag_stepOk f (strDropChars v 2) v tail).2 f1 e hstep)
  | case8 f v tail h1 h2 h3 f1 hstep ih =>
    simp only [FlagSet.scanTokens, h1, h2, h3, hstep, if_true, if_false, ite_false]
    exact scanOk_congl
      (stepFrame_of_eq (parseShortAux_stepOk v tail (strDropChars v 1).data f) (by simp [hstep, FlagStep.fsOf])) ih
  | case9 f v h1 h2 h3 f1 hstep =>
    simp only [FlagSet.scanTokens, h1, h2, h3, hstep, if_true, if_false, ite_false]
    exact scanOk_none_pair f f1
      (stepFrame_of_eq (parseShortAux_stepOk v [] (strDropChars v 1).data f) (by simp [hstep, FlagStep.fsOf]))
  | case10 f v h1 h2 h3 f1 v1 tail hstep ih =>
    simp only [FlagSet.scanTokens, h1, h2, h3, hstep, if_true, if_false, ite_false]
    exact scanOk_congl
      (stepFrame_of_eq (parseShortAux_stepOk v (v1 :: tail) (strDropChars v 1).data f) (by simp [hstep, FlagStep.fsOf])) ih
  | case11 f v tail h1 h2 h3 f1 hstep =>
    simp only [FlagSet.scanTokens, h1, h2, h3, hstep, if_true, if_false, ite_false]
    exact scanOk_none_pair f f1
      (stepFrame_of_eq (parseShortAux_stepOk v tail (strDropChars v 1).data f) (by simp [hstep, FlagStep.fsOf]))
  | case12 f v tail h1 h2 h3 f1 e hstep =>
    simp only [FlagSet.scanTokens, h1, h2, h3, hstep, if_true, if_false, ite_false]
    exact scanOk_err_pair f f1 e
      (stepFrame_of_eq (parseShortAux_stepOk v tail (strDropChars v 1).data f) (by simp [hstep, FlagStep.fsOf]))
      ((parseShortAux_stepOk v tail (strDropChars v 1).data f).2 f1 e hstep)
  | case13 f v tail h1 h2 h3 ih =>
    simp only [FlagSet.scanTokens, h1, h2, h3, if_true, if_false, ite_false]
    exact scanOk_congl ⟨rfl, rfl, rfl, rfl, rfl⟩ ih


theorem ppFrame_refl (f : FlagSet) : ppFrame f f := ⟨rfl, rfl, rfl, rfl, rfl, rfl⟩

theorem ppFrame_trans {f g h : FlagSet} (h1 : ppFrame f g) (h2 : ppFrame g h) :
    ppFrame f h := by
  obtain ⟨a1, a2, a3, a4, a5, a6⟩ := h1
  obtain ⟨b1, b2, b3, b4, b5, b6⟩ := h2
  refine ⟨?_, ?_, ?_, ?_, ?_, ?_⟩ <;> simp only [*]

theorem setPosVal_ppFrame (f : FlagSet) (p : Nat) (v : FlagValue) :
    ppFrame f (f.setPosVal p v) := ⟨rfl, rfl, rfl, rfl, rfl, rfl⟩

theorem processPos_ppOk : ∀ (l : List (Nat × PosField)) (f : FlagSet),
    ppFrame f ((f.processPos l).1) ∧
      ∀ e, (f.processPos l).2 = some e → ∃ p d, e = .invalidPositional p d := by
  intro l
  induction l with
  | nil =>
    intro f
    exact ⟨ppFrame_refl f, by intro e he; simp [FlagSet.processPos] at he⟩
  | cons hd tl ih =>
    intro f
    obtain ⟨p, fld⟩ := hd
    unfold FlagSet.processPos
    by_cases hlt : p < f.args.length
    · rw [if_pos hlt]
      cases hset : setFieldValue fld.val (f.args.getD p "") with
      | ok v =>
        have h := ih (f.setPosVal p v)
        exact ⟨ppFrame_trans (setPosVal_ppFrame f p v) h.1, h.2⟩
      | error d =>
        refine ⟨ppFrame_refl f, ?_⟩
        intro e he
        exact ⟨p, d, (Option.some.inj he).symm⟩
    · rw [if_neg hlt]
      exact ih f

theorem processPos_args_nil : ∀ (l : List (Nat × PosField)) (f : FlagSet),
    f.args = [] → f.processPos l = (f, none) := by
  intro l
  induction l with
  | nil => intro f _; rfl
  | cons hd tl ih =>
    intro f hargs
    obtain ⟨p, fld⟩ := hd
    unfold FlagSet.processPos
    rw [if_neg (by simp [hargs])]
    exact ih f hargs

theorem assocFind_map_ne [DecidableEq α] (l : List (α × β)) (q p : α) (g : β → β)
    (h : ¬p = q) :
    assocFind (l.map (fun kv => if kv.1 = q then (q, g kv.2) else kv)) p =
      assocFind l p := by
  induction l with
  | nil => rfl
  | cons hd tl ih =>
    simp only [List.map_cons, assocFind]
    by_cases hq : hd.1 = q
    · rw [if_pos hq]
      rw [if_neg (show ¬((q, g hd.2).1 = p) from fun hh => h hh.symm)]
      rw [if_neg (show ¬(hd.1 = p) from fun hh => h (hh.symm.trans hq))]
      exact ih
    · rw [if_neg hq]
      by_cases hp : hd.1 = p
      · rw [if_pos hp, if_pos hp]
      · rw [if_neg hp, if_neg hp]
        exact ih

theorem assocFind_map_eq [DecidableEq α] (l : List (α × β)) (q : α) (g : β → β)
    (fld : β) (h : assocFind l q = some fld) :
    assocFind (l.map (fun kv => if kv.1 = q then (q, g kv.2) else kv)) q =
      some (g fld) := by
  induction l with
  | nil => simp [assocFind] at h
  | cons hd tl ih =>
    simp only [assocFind] at h
    simp only [List.map_cons, assocFind]
    by_cases hq : hd.1 = q
    · rw [if_pos hq] at h
      rw [if_pos hq, if_pos (show (q, g hd.2).1 = q from rfl)]
      rw [Option.some.inj h]
    · rw [if_neg hq] at h
      rw [if_neg hq, if_neg hq]
      exact ih h

theorem setPosVal_posLookup_ne (f : FlagSet) (q p : Nat) (v : FlagValue)
    (h : ¬p = q) : (f.setPosVal q v).posLookup p = f.posLookup p :=
  assocFind_map_ne f.posFields q p (fun fld => { fld with val := v }) h

theorem setPosVal_posLookup_eq (f : FlagSet) (q : Nat) (v : FlagValue)
    (fld : PosField) (h : f.posLookup q = some fld) :
    (f.setPosVal q v).posLookup q = some { fld with val := v } :=
  assocFind_map_eq f.posFields q (fun fl => { fl with val := v }) fld h

theorem processPos_posLookup_ge : ∀ (l : List (Nat × PosField)) (f : FlagSet)
    (p : Nat), f.args.length ≤ p →
    ((f.processPos l).1).posLookup p = f.posLookup p := by
  intro l
  induction l with
  | nil => intro f p _; rfl
  | cons hd tl ih =>
    intro f p hp
    obtain ⟨q, fld⟩ := hd
    unfold FlagSet.processPos
    by_cases hlt : q < f.args.length
    · rw [if_pos hlt]
      cases hset : setFieldValue fld.val (f.args.getD q "") with
      | ok v =>
        have hne : ¬p = q := by omega
        have := ih (f.setPosVal q v) p hp
        rw [this, setPosVal_posLookup_ne f q p v hne]
      | error d => rfl
    · rw [if_neg hlt]
      exact ih f p hp

theorem processPos_posLookup_nmem : ∀ (l : List (Nat × PosField)) (f : FlagSet)
    (p : Nat), p ∉ l.map Prod.fst →
    ((f.processPos l).1).posLookup p = f.posLookup p := by
  intro l
  induction l with
  | nil => intro f p _; rfl
  | cons hd tl ih =>
    intro f p hp
    obtain ⟨q, fld⟩ := hd
    simp only [List.map_cons, List.mem_cons, not_or] at hp
    unfold FlagSet.processPos
    by_cases hlt : q < f.args.length
    · rw [if_pos hlt]
      cases hset : setFieldValue fld.val (f.args.getD q "") with
      | ok v =>
        have := ih (f.setPosVal q v) p hp.2
        rw [this, setPosVal_posLookup_ne f q p v hp.1]
      | error d => rfl
    · rw [if_neg hlt]
      exact ih f p hp.2


theorem processPos_err_spec : ∀ (l : List (Nat × PosField)) (f f' : FlagSet)
    (e : ParseError), f.processPos l = (f', some e) →
    ∃ p fld d, (p, fld) ∈ l ∧ p < f.args.length ∧
      setFieldValue fld.val (f.args.getD p "") = .error d ∧
      e = .invalidPositional p d := by
  intro l
  induction l with
  | nil =>
    intro f f' e he
    simp [FlagSet.processPos] at he
  | cons hd tl ih =>
    intro f f' e he
    obtain ⟨p, fld⟩ := hd
    unfold FlagSet.processPos at he
    by_cases hlt : p < f.args.length
    · rw [if_pos hlt] at he
      cases hset : setFieldValue fld.val (f.args.getD p "") with
      | ok v =>
        rw [hset] at he
        obtain ⟨q, fldq, d, hmem, hqlt, hqset, hqe⟩ := ih (f.setPosVal p v) f' e he
        exact ⟨q, fldq, d, List.mem_cons_of_mem _ hmem, hqlt, hqset, hqe⟩
      | error d =>
        rw [hset] at he
        obtain ⟨h1, h2⟩ := Prod.mk.injEq .. ▸ he
        refine ⟨p, fld, d, List.mem_cons_self .., hlt, hset, ?_⟩
        exact (Option.some.inj h2).symm
    · rw [if_neg hlt] at he
      obtain ⟨q, fldq, d, hmem, hqlt, hqset, hqe⟩ := ih f f' e he
      exact ⟨q, fldq, d, List.mem_cons_of_mem _ hmem, hqlt, hqset, hqe⟩

theorem processPos_err_of_fail : ∀ (l : List (Nat × PosField)) (f : FlagSet)
    (p : Nat) (fld : PosField) (d : String), (p, fld) ∈ l →
    p < f.args.length → setFieldValue fld.val (f.args.getD p "") = .error d →
    ∃ f' q d', f.processPos l = (f', some (.invalidPositional q d')) := by
  intro l
  induction l with
  | nil =>
    intro f p fld d hmem
    simp at hmem
  | cons hd tl ih =>
    intro f p fld d hmem hlt hset
    obtain ⟨q0, fld0⟩ := hd
    unfold FlagSet.processPos
    rcases List.mem_cons.mp hmem with hhd | htl
    · obtain ⟨hq, hf⟩ := Prod.mk.injEq .. ▸ hhd
      subst hq; subst hf
      rw [if_pos hlt, hset]
      exact ⟨f, p, d, rfl⟩
    · by_cases hlt0 : q0 < f.args.length
      · rw [if_pos hlt0]
        cases hset0 : setFieldValue fld0.val (f.args.getD q0 "") with
        | ok v => exact ih (f.setPosVal q0 v) p fld d htl hlt hset
        | error d0 => exact ⟨f, q0, d0, rfl⟩
      · rw [if_neg hlt0]
        exact ih f p fld d htl hlt hset

theorem processPos_ok_binding : ∀ (l : List (Nat × PosField)) (f f' : FlagSet),
    f.processPos l = (f', none) →
    ∀ (p : Nat) (fld : PosField), (p, fld) ∈ l → f.posLookup p = some fld →
    p < f.args.length → (l.map Prod.fst).Nodup →
    ∃ v, setFieldValue fld.val (f.args.getD p "") = .ok v ∧
      f'.posLookup p = some { fld with val := v } := by
  intro l
  induction l with
  | nil =>
    intro f f' _ p fld hmem
    simp at hmem
  | cons hd tl ih =>
    intro f f' hpp p fld hmem hfind hlt hnd
    obtain ⟨q0, fld0⟩ := hd
    simp only [List.map_cons, List.nodup_cons] at hnd
    unfold FlagSet.processPos at hpp
    rcases List.mem_cons.mp hmem with hhd | htl
    · obtain ⟨hq, hf⟩ := Prod.mk.injEq .. ▸ hhd
      subst hq; subst hf
      rw [if_pos hlt] at hpp
      cases hset : setFieldValue fld.val (f.args.getD p "") with
      | ok v =>
        rw [hset] at hpp
        refine ⟨v, rfl, ?_⟩
        have hstep : (f.setPosVal p v).posLookup p = some { fld with val := v } :=
          setPosVal_posLookup_eq f p v fld hfind
        have hrest : ((( f.setPosVal p v).processPos tl).1).posLookup p =
            (f.setPosVal p v).posLookup p :=
          processPos_posLookup_nmem tl (f.setPosVal p v) p hnd.1
        have hfst : ((f.setPosVal p v).processPos tl).1 = f' := congrArg Prod.fst hpp
        rw [← hfst, hrest, hstep]
      | error d =>
        rw [hset] at hpp
        exact absurd (congrArg Prod.snd hpp) (by simp)
    · have hne : ¬p = q0 := by
        intro hh
        subst hh
        exact hnd.1 (List.mem_map.mpr ⟨(p, fld), htl, rfl⟩)
      by_cases hlt0 : q0 < f.args.length
      · rw [if_pos hlt0] at hpp
        cases hset0 : setFieldValue fld0.val (f.args.getD q0 "") with
        | ok v0 =>
          rw [hset0] at hpp
          have hfind' : (f.setPosVal q0 v0).posLookup p = some fld := by
            rw [setPosVal_posLookup_ne f q0 p v0 hne]; exact hfind
          exact ih (f.setPosVal q0 v0) f' hpp p fld htl hfind' hlt hnd.2
        | error d0 =>
          rw [hset0] at hpp
          exact absurd (congrArg Prod.snd hpp) (by simp)
      · rw [if_neg hlt0] at hpp
        exact ih f f' hpp p fld htl hfind hlt hnd.2


theorem finishUnknown_frame (f : FlagSet) :
    f.finishUnknown.regs = f.regs ∧ f.finishUnknown.args = f.args ∧
      f.finishUnknown.posFields = f.posFields ∧
      f.finishUnknown.unknownFlags = f.unknownFlags ∧
      f.finishUnknown.nameMap = f.nameMap := by
  unfold FlagSet.finishUnknown
  split <;> exact ⟨rfl, rfl, rfl, rfl, rfl⟩

theorem finishAssign_regs (f : FlagSet) : f.finishAssign.regs = f.regs := by
  unfold FlagSet.finishAssign
  rw [(finishUnknown_frame _).1]
  split <;> rfl

theorem finishAssign_args (f : FlagSet) : f.finishAssign.args = f.args := by
  unfold FlagSet.finishAssign
  rw [(finishUnknown_frame _).2.1]
  split <;> rfl

theorem finishAssign_posFields (f : FlagSet) :
    f.finishAssign.posFields = f.posFields := by
  unfold FlagSet.finishAssign
  rw [(finishUnknown_frame _).2.2.1]
  split <;> rfl

theorem finishAssign_unknownFlags (f : FlagSet) :
    f.finishAssign.unknownFlags = f.unknownFlags := by
  unfold FlagSet.finishAssign
  rw [(finishUnknown_frame _).2.2.2.1]
  split <;> rfl

theorem finishAssign_nameMap (f : FlagSet) :
    f.finishAssign.nameMap = f.nameMap := by
  unfold FlagSet.finishAssign
  rw [(finishUnknown_frame _).2.2.2.2]
  split <;> rfl

/-- The scan phase, seen from the pre-reset state: frame-preserving and
never an `ErrHelp`. -/
theorem scanPhase_scanOk (f : FlagSet) (ts : List String) :
    scanOk f (f.scanPhase ts) :=
  scanOk_congl ⟨rfl, rfl, rfl, rfl, rfl⟩
    (scanTokens_scanOk { f with parsed := true, args := [], unknownFlags := [] } ts)


theorem Parse_scan_err {f : FlagSet} {ts : List String} {f1 : FlagSet}
    {e : ParseError} (h : f.scanPhase ts = (f1, some e)) :
    f.Parse ts = (f1, some e) := by
  unfold FlagSet.Parse
  rw [h]

theorem Parse_pos_err {f : FlagSet} {ts : List String} {f1 f2 : FlagSet}
    {e : ParseError} (hs : f.scanPhase ts = (f1, none))
    (hp : f1.processPos f1.posFields = (f2, some e)) :
    f.Parse ts = (f2, some e) := by
  unfold FlagSet.Parse
  rw [hs]
  have h2 : (match f1.processPos f1.posFields with
      | (f2, some e) => (f2, some e)
      | (f2, none) => (f2.finishAssign, none)) = ((f2, some e) : FlagSet × Option ParseError) := by
    rw [hp]
  exact h2

theorem Parse_success {f : FlagSet} {ts : List String} {f1 f2 : FlagSet}
    (hs : f.scanPhase ts = (f1, none))
    (hp : f1.processPos f1.posFields = (f2, none)) :
    f.Parse ts = (f2.finishAssign, none) := by
  unfold FlagSet.Parse
  rw [hs]
  have h2 : (match f1.processPos f1.posFields with
      | (f2, some e) => (f2, some e)
      | (f2, none) => (f2.finishAssign, none)) =
        ((f2.finishAssign, none) : FlagSet × Option ParseError) := by
    rw [hp]
  exact h2

/-- Claim C10: when `Parse` returns an error — from the scan or from a
positional conversion — the bound rest-capture and unknown-capture slices
keep the values they held before the call: both assignments happen only on
the all-success path. -/
theorem claim_C10 (f : FlagSet) (ts : List String) (f' : FlagSet) (e : ParseError)
    (h : f.Parse ts = (f', some e)) :
    f'.restVal = f.restVal ∧ f'.unknownVal = f.unknownVal := by
  rcases hscan : f.scanPhase ts with ⟨f1, oe⟩
  have hfr1 : auxFrame f f1 := by
    have := (scanPhase_scanOk f ts).1
    rw [hscan] at this
    exact this
  cases oe with
  | some e1 =>
    have hP := (Parse_scan_err hscan).symm.trans h
    obtain ⟨h1, h2⟩ := Prod.mk.injEq .. ▸ hP
    subst h1
    exact ⟨hfr1.2.1, hfr1.2.2.1⟩
  | none =>
    rcases hpp : f1.processPos f1.posFields with ⟨f2, oe2⟩
    have hfr2 : ppFrame f1 f2 := by
      have := (processPos_ppOk f1.posFields f1).1
      rw [hpp] at this
      exact this
    cases oe2 with
    | some e2 =>
      have hP := (Parse_pos_err hscan hpp).symm.trans h
      obtain ⟨h1, h2⟩ := Prod.mk.injEq .. ▸ hP
      subst h1
      exact ⟨hfr2.1.trans hfr1.2.1, hfr2.2.1.trans hfr1.2.2.1⟩
    | none =>
      have hP := (Parse_success hscan hpp).symm.trans h
      exact absurd (congrArg Prod.snd hP) (by simp)

/-- Witness for C10: a `MissingValue` failure leaves the prefilled rest and
unknown slices untouched. -/
theorem claim_C10_witness :
    ((fsRestPrefilled.Parse ["--name"]).1).restVal = fsRestPrefilled.restVal ∧
      ((fsRestPrefilled.Parse ["--name"]).1).unknownVal = fsRestPrefilled.unknownVal :=
  claim_C10 fsRestPrefilled ["--name"] ((fsRestPrefilled.Parse ["--name"]).1)
    (.missingValueLong "name") (by decide)

/-- Claim C6: a second `Parse` resets `literalArgs` and the unknown-flag
accumulator at the start of the call (the prior contents of both are
irrelevant to the result), but never restores a bound flag value to its
declared default: re-parsing an empty input leaves every flag registration
untouched, and concretely a `verbose` flag set to `true` by a first parse is
still `true` after a second parse of `[]`, while `args` shrinks back to `[]`. -/
theorem claim_C6 :
    (∀ (f : FlagSet) (A U ts : List String),
        FlagSet.Parse { f with args := A, unknownFlags := U } ts = f.Parse ts) ∧
    (∀ f : FlagSet, ((f.Parse []).1).regs = f.regs) ∧
    (fsVerbose.flagVal "verbose" = some (.bool false) ∧
      ((fsVerbose.Parse ["--verbose", "x"]).1).flagVal "verbose" = some (.bool true) ∧
      ((fsVerbose.Parse ["--verbose", "x"]).1).args = ["x"] ∧
      ((((fsVerbose.Parse ["--verbose", "x"]).1).Parse []).1).flagVal "verbose" =
        some (.bool true) ∧
      ((((fsVerbose.Parse ["--verbose", "x"]).1).Parse []).1).args = [] ∧
      (((fsVerbose.Parse ["--verbose", "x"]).1).Parse []).2 = none) := by
  refine ⟨?_, ?_, by decide⟩
  · intro f A U ts
    rfl
  · intro f
    have hs : f.scanPhase [] =
        ({ f with parsed := true, args := [], unknownFlags := [] }, none) := rfl
    have hp := processPos_args_nil
      ({ f with parsed := true, args := [], unknownFlags := [] } : FlagSet).posFields
      { f with parsed := true, args := [], unknownFlags := [] } rfl
    rw [Parse_success hs hp, finishAssign_regs]

/-- Claim C8: path registration and lookup are whitespace-insensitive — two
paths with the same whitespace-separated word sequence reach the same map
entry — and a later `Dispatch` under an equivalent path replaces the entry. -/
theorem claim_C8 (d : Dispatcher) (p q : String) (c c2 : Cmd)
    (h : goFields p = goFields q) :
    (d.Dispatch p c).GetCommand q = some c ∧
      (d.Dispatch p c).HasCommand q = true ∧
      ((d.Dispatch p c).Dispatch q c2).GetCommand p = some c2 := by
  have hn : normalizeCommandPath p = normalizeCommandPath q := by
    unfold normalizeCommandPath
    rw [h]
  refine ⟨?_, ?_, ?_⟩
  · simp [Dispatcher.Dispatch, Dispatcher.GetCommand, ← hn, assocFind_put]
  · simp [Dispatcher.Dispatch, Dispatcher.HasCommand, ← hn, assocFind_put]
  · simp [Dispatcher.Dispatch, Dispatcher.GetCommand, hn, assocFind_put]

/-- Witness for C8 at `"foo  bar"` / `" foo bar "`. -/
theorem claim_C8_witness :
    ((NewDispatcher "app").Dispatch "foo  bar" cmdFoo).GetCommand " foo bar " =
        some cmdFoo ∧
      ((NewDispatcher "app").Dispatch "foo  bar" cmdFoo).HasCommand " foo bar " = true ∧
      (((NewDispatcher "app").Dispatch "foo  bar" cmdFoo).Dispatch " foo bar "
          cmdFooBar).GetCommand "foo  bar" = some cmdFooBar :=
  claim_C8 (NewDispatcher "app") "foo  bar" " foo bar " cmdFoo cmdFooBar (by decide)


/-- Claim C4: when the per-character cluster scan reaches a registered
non-nullary flag character whose immediate successor in the cluster is also a
registered non-nullary flag, the result is `MissingValue` carrying the first
of the two; in particular `Parse ["-ab", "value"]` with non-nullary `a`, `b`
fails that way. -/
theorem claim_C4 :
    (∀ (f : FlagSet) (c1 c2 : Char) (tl : List Char) (curTok : String)
        (rest : List String) (i1 i2 : Nat),
      assocFind f.shortMap c1 = some i1 →
      (f.regs.getD i1 FlagReg.dflt).val.isBool = false →
      assocFind f.shortMap c2 = some i2 →
      (f.regs.getD i2 FlagReg.dflt).val.isBool = false →
      f.parseShortAux curTok rest (c1 :: c2 :: tl) =
        .err f (.missingValueShort c1)) ∧
    (fsTwoValueShorts.Parse ["-ab", "value"]).2 =
      some (.missingValueShort 'a') := by
  refine ⟨?_, by decide⟩
  intro f c1 c2 tl curTok rest i1 i2 h1 hb1 h2 hb2
  simp only [FlagSet.parseShortAux, h1, h2, hb1, hb2]
  simp

/-- Witness for C4: the general cluster rule applied to the `-ab` cluster of
`fsTwoValueShorts`. -/
theorem claim_C4_witness :
    fsTwoValueShorts.parseShortAux "-ab" ["value"] ['a', 'b'] =
      .err fsTwoValueShorts (.missingValueShort 'a') :=
  claim_C4.1 fsTwoValueShorts 'a' 'b' [] "-ab" ["value"] 0 1 (by decide) (by decide)
    (by decide) (by decide)


/-- Counterexample to C3 as stated: with unknown-capture on and an int
positional at index 0, parsing `["12x", "--unk"]` sticky-captures `--unk`
and stops the scan, yet `Parse` still returns an error — the post-scan
conversion of the literal `"12x"` at position 0 fails.  The claim says such a
parse "returns no error". -/
theorem claim_C3_cex :
    fsIntPosCapture.allowUnknownFlags = true ∧
      assocFind fsIntPosCapture.nameMap "unk" = none ∧
      ((fsIntPosCapture.Parse ["12x", "--unk"]).1).unknownFlags = ["--unk"] ∧
      (fsIntPosCapture.Parse ["12x", "--unk"]).2 =
        some (.invalidPositional 0
          "strconv.ParseInt: parsing \"12x\": invalid syntax") := by
  decide

/-- Claim C3 (amended): with unknown-capture mode on, the first flag token
whose long name (or any short-cluster character) is not registered makes the
scan append that whole token and every remaining token, in order and
verbatim, to the unknown list and stop scanning, and the scan itself reports
no error — `Parse` as a whole may still fail in post-scan positional
conversion.  P7 holds concretely. -/
theorem claim_C3_amended :
    (∀ (f : FlagSet) (tok : String) (rest : List String),
      strStartsWith tok "--" = true → tok ≠ "--" →
      f.allowUnknownFlags = true →
      assocFind f.nameMap (longFlagName tok) = none →
      f.scanTokens (tok :: rest) =
        ({ f with unknownFlags := f.unknownFlags ++ (tok :: rest) }, none)) ∧
    (∀ (f : FlagSet) (c : Char) (tl : List Char) (curTok : String)
        (rest : List String),
      f.allowUnknownFlags = true →
      assocFind f.shortMap c = none →
      f.parseShortAux curTok rest (c :: tl) =
        .absorb { f with unknownFlags := f.unknownFlags ++ (curTok :: rest) }) ∧
    ((fsUnknownCapture.Parse ["--verbose", "--unknown", "arg1", "arg2"]).2 = none ∧
      ((fsUnknownCapture.Parse ["--verbose", "--unknown", "arg1", "arg2"]).1).flagVal
          "verbose" = some (.bool true) ∧
      ((fsUnknownCapture.Parse ["--verbose", "--unknown", "arg1", "arg2"]).1).unknownFlags =
        ["--unknown", "arg1", "arg2"] ∧
      ((fsUnknownCapture.Parse ["--verbose", "--unknown", "arg1", "arg2"]).1).args = []) := by
  refine ⟨?_, ?_, by decide⟩
  · intro f tok rest hpre hne hunk hfind
    have hstep : f.parseLongFlag (strDropChars tok 2) tok rest =
        .absorb { f with unknownFlags := f.unknownFlags ++ (tok :: rest) } := by
      unfold FlagSet.parseLongFlag
      cases hsp : splitEq (strDropChars tok 2).data with
      | none =>
        have hnm : longFlagName tok = strDropChars tok 2 := by
          unfold longFlagName
          rw [hsp]
        rw [hnm] at hfind
        simp only [hsp, hfind, hunk]
        simp
      | some ab =>
        obtain ⟨a, b⟩ := ab
        have hnm : longFlagName tok = ⟨a⟩ := by
          unfold longFlagName
          rw [hsp]
        rw [hnm] at hfind
        simp only [hsp, hfind, hunk]
        simp
    simp only [FlagSet.scanTokens, hpre, hstep]
    simp [hne]
  · intro f c tl curTok rest hunk hfind
    unfold FlagSet.parseShortAux
    simp only [hfind, hunk]
    simp

/-- Witness for the amended C3: the sticky long-flag absorption fires on
`["--unknown", "arg1"]` against `fsUnknownCapture`. -/
theorem claim_C3_witness :
    fsUnknownCapture.scanTokens ["--unknown", "arg1"] =
      ({ fsUnknownCapture with
          unknownFlags := fsUnknownCapture.unknownFlags ++ ["--unknown", "arg1"] },
        none) :=
  claim_C3_amended.1 fsUnknownCapture "--unknown" ["arg1"] (by decide) (by decide)
    (by decide) (by decide)



theorem scanTokens_long {f : FlagSet} {tok : String} {rest : List String}
    (h1 : tok ≠ "--") (h2 : strStartsWith tok "--" = true) :
    f.scanTokens (tok :: rest) =
      match f.parseLongFlag (strDropChars tok 2) tok rest with
      | .ok0 f' => f'.scanTokens rest
      | .ok1 f' =>
        match rest with
        | [] => (f', none)
        | _ :: rest2 => f'.scanTokens rest2
      | .absorb f' => (f', none)
      | .err f' e => (f', some e) := by
  simp only [FlagSet.scanTokens]
  rw [if_neg h1, if_pos h2]

theorem scanTokens_short {f : FlagSet} {tok : String} {rest : List String}
    (h1 : tok ≠ "--") (h2 : ¬strStartsWith tok "--" = true)
    (h3 : (strStartsWith tok "-" && decide (strLen tok > 1)) = true) :
    f.scanTokens (tok :: rest) =
      match f.parseShortAux tok rest (strDropChars tok 1).data with
      | .ok0 f' => f'.scanTokens rest
      | .ok1 f' =>
        match rest with
        | [] => (f', none)
        | _ :: rest2 => f'.scanTokens rest2
      | .absorb f' => (f', none)
      | .err f' e => (f', some e) := by
  simp only [FlagSet.scanTokens]
  rw [if_neg h1, if_neg h2, if_pos h3]

/-- Counterexample to C9 as stated: even with neither `help` nor `h`
registered and capture off, an input containing `-h` parses without any
error when the `-h` sits behind the `--` terminator — it is a literal
argument, not a flag token. -/
theorem claim_C9_cex :
    assocFind fsEmpty.nameMap "help" = none ∧
      assocFind fsEmpty.shortMap 'h' = none ∧
      fsEmpty.allowUnknownFlags = false ∧
      (fsEmpty.Parse ["--", "-h"]).2 = none ∧
      ((fsEmpty.Parse ["--", "-h"]).1).args = ["-h"] := by
  decide

/-- Claim C9 (amended): `Parse` gives help tokens no special treatment when
they are scanned as flag tokens: with `help`/`h` unregistered, a scanned
`--help` or `-h` produces `UnknownFlag` (capture off) or is sticky-captured
(capture on), and `Parse` never returns `ErrHelp` at all.  (Tokens consumed
as flag values or behind `--` are not scanned as flags, see the
counterexample.) -/
theorem claim_C9_amended :
    (∀ (f : FlagSet) (rest : List String),
      assocFind f.nameMap "help" = none → f.allowUnknownFlags = false →
      f.scanTokens ("--help" :: rest) = (f, some (.unknownFlagLong "help"))) ∧
    (∀ (f : FlagSet) (rest : List String),
      assocFind f.shortMap 'h' = none → f.allowUnknownFlags = false →
      f.scanTokens ("-h" :: rest) = (f, some (.unknownFlagShort 'h'))) ∧
    (∀ (f : FlagSet) (rest : List String),
      assocFind f.nameMap "help" = none → f.allowUnknownFlags = true →
      f.scanTokens ("--help" :: rest) =
        ({ f with unknownFlags := f.unknownFlags ++ ("--help" :: rest) }, none)) ∧
    (∀ (f : FlagSet) (rest : List String),
      assocFind f.shortMap 'h' = none → f.allowUnknownFlags = true →
      f.scanTokens ("-h" :: rest) =
        ({ f with unknownFlags := f.unknownFlags ++ ("-h" :: rest) }, none)) ∧
    (∀ (f : FlagSet) (ts : List String), (f.Parse ts).2 ≠ some .helpRequested) := by
  refine ⟨?_, ?_, ?_, ?_, ?_⟩
  · intro f rest hfind hunk
    have hstep : f.parseLongFlag (strDropChars "--help" 2) "--help" rest =
        .err f (.unknownFlagLong "help") := by
      rw [show strDropChars "--help" 2 = "help" from by decide]
      unfold FlagSet.parseLongFlag
      rw [show splitEq ("help" : String).data = none from by decide]
      simp only [hfind, hunk]
      simp
    rw [scanTokens_long (by decide) (by decide), hstep]
  · intro f rest hfind hunk
    have hstep : f.parseShortAux "-h" rest (strDropChars "-h" 1).data =
        .err f (.unknownFlagShort 'h') := by
      rw [show (strDropChars "-h" 1).data = ['h'] from by decide]
      unfold FlagSet.parseShortAux
      simp only [hfind, hunk]
      simp
    rw [scanTokens_short (by decide) (by decide) (by decide), hstep]
  · intro f rest hfind hunk
    have hstep : f.parseLongFlag (strDropChars "--help" 2) "--help" rest =
        .absorb { f with unknownFlags := f.unknownFlags ++ ("--help" :: rest) } := by
      rw [show strDropChars "--help" 2 = "help" from by decide]
      unfold FlagSet.parseLongFlag
      rw [show splitEq ("help" : String).data = none from by decide]
      simp only [hfind, hunk]
      simp
    rw [scanTokens_long (by decide) (by decide), hstep]
  · intro f rest hfind hunk
    have hstep : f.parseShortAux "-h" rest (strDropChars "-h" 1).data =
        .absorb { f with unknownFlags := f.unknownFlags ++ ("-h" :: rest) } := by
      rw [show (strDropChars "-h" 1).data = ['h'] from by decide]
      unfold FlagSet.parseShortAux
      simp only [hfind, hunk]
      simp
    rw [scanTokens_short (by decide) (by decide) (by decide), hstep]
  · intro f ts h
    rcases hscan : f.scanPhase ts with ⟨f1, oe⟩
    cases oe with
    | some e =>
      have hP := Parse_scan_err hscan
      rw [hP] at h
      have := (scanPhase_scanOk f ts).2 e (by rw [hscan])
      rw [Option.some.inj h] at this
      exact absurd this (by simp [ParseError.isHelpErr])
    | none =>
      rcases hpp : f1.processPos f1.posFields with ⟨f2, oe2⟩
      cases oe2 with
      | some e2 =>
        have hP := Parse_pos_err hscan hpp
        rw [hP] at h
        obtain ⟨p, d, hpd⟩ := (processPos_ppOk f1.posFields f1).2 e2 (by rw [hpp])
        rw [Option.some.inj h] at hpd
        exact ParseError.noConfusion hpd
      | none =>
        have hP := Parse_success hscan hpp
        rw [hP] at h
        exact Option.noConfusion h

/-- Witness for the amended C9: `--help` against the empty schema is a plain
unknown flag. -/
theorem claim_C9_witness :
    fsEmpty.scanTokens ["--help"] = (fsEmpty, some (.unknownFlagLong "help")) :=
  claim_C9_amended.1 fsEmpty [] (by decide) (by decide)


theorem assocFind_of_mem_nodup [DecidableEq α] (l : List (α × β)) (p : α) (b : β)
    (hmem : (p, b) ∈ l) (hnd : (l.map Prod.fst).Nodup) : assocFind l p = some b := by
  induction l with
  | nil => simp at hmem
  | cons hd tl ih =>
    simp only [List.map_cons, List.nodup_cons] at hnd
    rcases List.mem_cons.mp hmem with hhd | htl
    · rw [← hhd]
      simp [assocFind]
    · have hne : ¬hd.1 = p := fun hh =>
        hnd.1 (hh ▸ List.mem_map.mpr ⟨(p, b), htl, rfl⟩)
      simp [assocFind, hne, ih htl hnd.2]

theorem posLookup_congr {f g : FlagSet} (h : g.posFields = f.posFields) (p : Nat) :
    g.posLookup p = f.posLookup p := by
  unfold FlagSet.posLookup
  rw [h]

theorem finishAssign_posLookup (f : FlagSet) (p : Nat) :
    f.finishAssign.posLookup p = f.posLookup p :=
  posLookup_congr (finishAssign_posFields f) p

/-- Claim C5: after the token scan of `Parse` leaves literal arguments
`f1.args`, a positional field at index `p < len` is bound by converting
`f1.args[p]`: on overall success it holds the converted value; a conversion
failure makes `Parse` fail, and the returned error is an
`invalid value for position p: detail` error of some failing position; a
field whose index reaches past the literals keeps exactly its pre-parse
value, error or no error. -/
theorem claim_C5 :
    (∀ (fs : FlagSet) (ts : List String) (f1 f2 : FlagSet) (e : ParseError),
      fs.scanPhase ts = (f1, none) → fs.Parse ts = (f2, some e) →
      ∃ p fld d, (p, fld) ∈ fs.posFields ∧ p < f1.args.length ∧
        setFieldValue fld.val (f1.args.getD p "") = .error d ∧
        e = .invalidPositional p d ∧
        e.render = "invalid value for position " ++ toString p ++ ": " ++ d) ∧
    (∀ (fs : FlagSet) (ts : List String) (f1 f2 : FlagSet) (p : Nat)
        (fld : PosField),
      fs.scanPhase ts = (f1, none) → fs.Parse ts = (f2, none) →
      (p, fld) ∈ fs.posFields → (fs.posFields.map Prod.fst).Nodup →
      p < f1.args.length →
      ∃ v, setFieldValue fld.val (f1.args.getD p "") = .ok v ∧
        f2.posLookup p = some { fld with val := v }) ∧
    (∀ (fs : FlagSet) (ts : List String) (f1 : FlagSet) (p : Nat)
        (fld : PosField),
      fs.scanPhase ts = (f1, none) → (p, fld) ∈ fs.posFields →
      f1.args.length ≤ p →
      ((fs.Parse ts).1).posLookup p = fs.posLookup p) ∧
    (∀ (fs : FlagSet) (ts : List String) (f1 : FlagSet) (p : Nat)
        (fld : PosField) (d : String),
      fs.scanPhase ts = (f1, none) → (p, fld) ∈ fs.posFields →
      p < f1.args.length →
      setFieldValue fld.val (f1.args.getD p "") = .error d →
      ∃ f2 q d', fs.Parse ts = (f2, some (.invalidPositional q d'))) := by
  have hPF : ∀ (fs : FlagSet) (ts : List String) (f1 : FlagSet),
      fs.scanPhase ts = (f1, none) → f1.posFields = fs.posFields := by
    intro fs ts f1 hscan
    have := (scanPhase_scanOk fs ts).1
    rw [hscan] at this
    exact this.1
  refine ⟨?_, ?_, ?_, ?_⟩
  · intro fs ts f1 f2 e hscan hP
    rcases hpp : f1.processPos f1.posFields with ⟨f2x, oe2⟩
    cases oe2 with
    | some e2 =>
      have h2 := (Parse_pos_err hscan hpp).symm.trans hP
      obtain ⟨hf, he⟩ := Prod.mk.injEq .. ▸ h2
      obtain ⟨p, fld, d, hmem, hlt, hset, hepd⟩ :=
        processPos_err_spec f1.posFields f1 f2x e2 hpp
      rw [hPF fs ts f1 hscan] at hmem
      refine ⟨p, fld, d, hmem, hlt, hset, ?_, ?_⟩
      · rw [← Option.some.inj he, hepd]
      · rw [← Option.some.inj he, hepd]
        rfl
    | none =>
      have h2 := (Parse_success hscan hpp).symm.trans hP
      exact absurd (congrArg Prod.snd h2) (by simp)
  · intro fs ts f1 f2 p fld hscan hP hmem hnd hlt
    rcases hpp : f1.processPos f1.posFields with ⟨f2x, oe2⟩
    cases oe2 with
    | some e2 =>
      have h2 := (Parse_pos_err hscan hpp).symm.trans hP
      exact absurd (congrArg Prod.snd h2) (by simp)
    | none =>
      have h2 := (Parse_success hscan hpp).symm.trans hP
      obtain ⟨hf, _⟩ := Prod.mk.injEq .. ▸ h2
      have hmem1 : (p, fld) ∈ f1.posFields := by
        rw [hPF fs ts f1 hscan]
        exact hmem
      have hnd1 : (f1.posFields.map Prod.fst).Nodup := by
        rw [hPF fs ts f1 hscan]
        exact hnd
      have hfind : f1.posLookup p = some fld :=
        assocFind_of_mem_nodup f1.posFields p fld hmem1 hnd1
      obtain ⟨v, hset, hlook⟩ :=
        processPos_ok_binding f1.posFields f1 f2x hpp p fld hmem1 hfind hlt hnd1
      refine ⟨v, hset, ?_⟩
      rw [← hf, finishAssign_posLookup, hlook]
  · intro fs ts f1 p fld hscan hmem hge
    rcases hpp : f1.processPos f1.posFields with ⟨f2x, oe2⟩
    have hx : f2x.posLookup p = f1.posLookup p := by
      have := processPos_posLookup_ge f1.posFields f1 p hge
      rw [hpp] at this
      exact this
    have hbase : f1.posLookup p = fs.posLookup p :=
      posLookup_congr (hPF fs ts f1 hscan) p
    cases oe2 with
    | some e2 =>
      rw [Parse_pos_err hscan hpp]
      rw [hx, hbase]
    | none =>
      rw [Parse_success hscan hpp]
      show f2x.finishAssign.posLookup p = fs.posLookup p
      rw [finishAssign_posLookup, hx, hbase]
  · intro fs ts f1 p fld d hscan hmem hlt hset
    have hmem1 : (p, fld) ∈ f1.posFields := by
      rw [hPF fs ts f1 hscan]
      exact hmem
    obtain ⟨f2x, q, d', hpp⟩ :=
      processPos_err_of_fail f1.posFields f1 p fld d hmem1 hlt hset
    exact ⟨f2x, q, d', Parse_pos_err hscan hpp⟩

/-- Witness for C5: properties P8 — positional fields `Command@0`,
`Target@1`, `Count@2 (int)` and input `["build", "main.go", "notanumber"]`
make `Parse` fail at position 2. -/
theorem claim_C5_witness :
    ∃ p fld d, (p, fld) ∈ fsPositionals.posFields ∧
      p < ((fsPositionals.scanPhase ["build", "main.go", "notanumber"]).1).args.length ∧
      setFieldValue fld.val
          (((fsPositionals.scanPhase ["build", "main.go", "notanumber"]).1).args.getD p "") =
        .error d ∧
      (ParseError.invalidPositional 2
          "strconv.ParseInt: parsing \"notanumber\": invalid syntax") =
        .invalidPositional p d ∧
      (ParseError.invalidPositional 2
          "strconv.ParseInt: parsing \"notanumber\": invalid syntax").render =
        "invalid value for position " ++ toString p ++ ": " ++ d :=
  claim_C5.1 fsPositionals ["build", "main.go", "notanumber"]
    ((fsPositionals.scanPhase ["build", "main.go", "notanumber"]).1)
    ((fsPositionals.Parse ["build", "main.go", "notanumber"]).1)
    (.invalidPositional 2 "strconv.ParseInt: parsing \"notanumber\": invalid syntax")
    (by decide) (by decide)


theorem tryPrefixes_eq_firstSome (d : Dispatcher) (args commandParts : List String)
    (indices : List Nat) (skipped : List FlagInfo) : ∀ (n : Nat),
    d.tryPrefixes args commandParts indices skipped n =
      match firstSome (candidateAt d args commandParts indices skipped)
          (descRange n) with
      | some r => (some r.1, r.2)
      | none => (none, args) := by
  intro n
  induction n with
  | zero => rfl
  | succ k ih =>
    unfold Dispatcher.tryPrefixes
    cases hfind : assocFind d.commands
        (normalizeCommandPath (strJoin " " (commandParts.take (k + 1)))) with
    | none =>
      have hc : candidateAt d args commandParts indices skipped k = none := by
        unfold candidateAt
        rw [hfind]
      simp only [descRange, firstSome, hc, hfind]
      exact ih
    | some entry =>
      by_cases hval :
          validateSkipped entry.command.fs skipped (lastIdxAt indices k) = true
      · have hc : candidateAt d args commandParts indices skipped k =
            some (entry, reassemble skipped (lastIdxAt indices k) args) := by
          unfold candidateAt
          rw [hfind]
          exact if_pos hval
        simp only [descRange, firstSome, hc, hfind, hval, if_true]
      · have hc : candidateAt d args commandParts indices skipped k = none := by
          unfold candidateAt
          rw [hfind]
          exact if_neg hval
        simp only [descRange, firstSome, hc, hfind, if_neg hval]
        exact ih

/-- Claim C1: the resolver tries the collected command-candidate prefixes
from longest to shortest and returns the first registered-and-valid one,
with the reassembled sub-vector built from the skipped flag items at or
before the last command word's index (each flag, then its tagged value, in
original order) followed by the original tokens strictly after that index;
P5 holds concretely. -/
theorem claim_C1 :
    (∀ (d : Dispatcher) (args : List String),
      d.findCommandWithInterspersedFlags args = d.resolveSpec args) ∧
    (((dThree.findCommandWithInterspersedFlags ["foo", "bar", "baz", "x"]).1.map
        (fun e => e.path)) = some "foo bar baz" ∧
      (dThree.findCommandWithInterspersedFlags ["foo", "bar", "baz", "x"]).2 =
        ["x"]) := by
  refine ⟨?_, by decide⟩
  intro d args
  unfold Dispatcher.findCommandWithInterspersedFlags Dispatcher.resolveSpec
  exact tryPrefixes_eq_firstSome d args _ _ _ _


theorem foldl_matches (pred bad : FlagReg → Bool) : ∀ (l : List FlagReg)
    (st : Bool × Bool),
    l.foldl (fun (p : Bool × Bool) fl =>
        if pred fl then (true, if bad fl then false else p.2) else p) st =
      (st.1 || l.any pred, st.2 && !(l.any (fun fl => pred fl && bad fl))) := by
  intro l
  induction l with
  | nil => intro st; simp
  | cons fl tl ih =>
    intro st
    simp only [List.foldl_cons, List.any_cons]
    by_cases hp : pred fl = true
    · rw [if_pos hp, ih]
      by_cases hb : bad fl = true
      · simp [hp, hb]
      · simp only [Bool.not_eq_true] at hb
        simp [hp, hb]
    · simp only [Bool.not_eq_true] at hp
      rw [if_neg (by simp [hp]), ih]
      simp [hp]

theorem checkOneFlag_eq (fs : FlagSet) (fi : FlagInfo) (valid : Bool) :
    checkOneFlag fs fi valid = (valid && passFlagB fs fi) := by
  unfold checkOneFlag passFlagB
  simp only [foldl_matches]
  cases hv : fi.hasValue <;> cases hh : isHelpFlag fi.flag <;>
    cases ha : fs.visitAllFlags.any
        (flagNameMatches (trimPre (trimPre fi.flag "--") "-")) <;>
      simp [hv, hh, ha, Bool.and_comm, Bool.and_left_comm]

/-- Counterexample to C2 as stated: the schema of `"foo"` has a boolean flag
`host` with short character `h`.  Scanning `["-h", "x", "foo"]` tags `-h` as
carrying the value `x`; `-h` is a universal help token, so by the claim the
prefix `"foo"` must validate — but the code first matches `-h` against the
`host` flag, sees a boolean flag tagged with a value, and rejects the prefix:
resolution finds nothing. -/
theorem claim_C2_cex :
    dHost.interScan [] [] [] 0 ["-h", "x", "foo"] =
      (["foo"], [2], [{ flag := "-h", value := "x", hasValue := true, index := 0 }]) ∧
      dHost.HasCommand "foo" = true ∧
      isHelpFlag "-h" = true ∧
      validateSkipped fsHostBool
        [{ flag := "-h", value := "x", hasValue := true, index := 0 }] 2 = false ∧
      (dHost.findCommandWithInterspersedFlags ["-h", "x", "foo"]).1 = none := by
  decide

/-- Claim C2 (amended): validation examines exactly the skipped flag items at
or before the boundary; such an item passes iff it does not match any
`VisitAll`-visible (long-named) boolean flag while tagged as carrying a value,
and either matches some visible flag or — only when it matches none — is
`-h`/`--help`; a registered prefix whose validation fails is skipped and
resolution continues with the next shorter prefix. -/
theorem claim_C2_amended :
    (∀ (fs : FlagSet) (skipped : List FlagInfo) (lastIdx : Int),
      validateSkipped fs skipped lastIdx =
        skipped.all (fun fi =>
          if (fi.index : Int) > lastIdx then true else passFlagB fs fi)) ∧
    (∀ (d : Dispatcher) (args commandParts : List String) (indices : List Nat)
        (skipped : List FlagInfo) (k : Nat) (entry : CommandEntry),
      assocFind d.commands
          (normalizeCommandPath (strJoin " " (commandParts.take (k + 1)))) =
        some entry →
      validateSkipped entry.command.fs skipped (lastIdxAt indices k) = false →
      d.tryPrefixes args commandParts indices skipped (k + 1) =
        d.tryPrefixes args commandParts indices skipped k) := by
  constructor
  · intro fs skipped lastIdx
    unfold validateSkipped
    suffices h : ∀ (b : Bool),
        skipped.foldl (fun valid fi =>
            if (fi.index : Int) > lastIdx then valid else checkOneFlag fs fi valid) b =
          (b && skipped.all (fun fi =>
            if (fi.index : Int) > lastIdx then true else passFlagB fs fi)) by
      rw [h true]
      simp
    induction skipped with
    | nil => intro b; simp
    | cons fi tl ih =>
      intro b
      simp only [List.foldl_cons, List.all_cons]
      by_cases hgt : (fi.index : Int) > lastIdx
      · rw [if_pos hgt, if_pos hgt, ih]
        simp
      · rw [if_neg hgt, if_neg hgt, checkOneFlag_eq, ih]
        simp [Bool.and_assoc]
  · intro d args commandParts indices skipped k entry hfind hval
    conv_lhs => unfold Dispatcher.tryPrefixes
    simp only [hfind]
    exact if_neg (by simp [hval])

/-- Witness for the amended C2: the rejected `"foo"` candidate of the
counterexample scenario makes `tryPrefixes` fall through to the next counter
value. -/
theorem claim_C2_witness :
    dHost.tryPrefixes ["-h", "x", "foo"] ["foo"] [2]
        [{ flag := "-h", value := "x", hasValue := true, index := 0 }] 1 =
      dHost.tryPrefixes ["-h", "x", "foo"] ["foo"] [2]
        [{ flag := "-h", value := "x", hasValue := true, index := 0 }] 0 :=
  claim_C2_amended.2 dHost ["-h", "x", "foo"] ["foo"] [2]
    [{ flag := "-h", value := "x", hasValue := true, index := 0 }] 0 entryHost
    (by decide) (by decide)


/-- Counterexample to C7 as stated: the completion check of `Execute` runs
before help interception, so an input whose first token is a completion flag
is handled as a completion request even though it contains a help token and
no command resolves — general help is not rendered. -/
theorem claim_C7_cex :
    hasHelpToken ["--complete-bash", "-h"] = true ∧
      (dEmpty.findCommandWithInterspersedFlags ["--complete-bash", "-h"]).1 = none ∧
      dEmpty.Execute ["--complete-bash", "-h"] = .completionHandled ∧
      ExecResult.completionHandled ≠ ExecResult.generalHelp := by
  decide

/-- Claim C7 (amended): for inputs that are not completion requests, a help
token anywhere in the raw input makes `Execute` render command-specific help
for the command resolved by the interspersed-flag algorithm — its `Run` is
never invoked (`.ran` is the only outcome that invokes it) — and general
help when no command resolves; P6 holds concretely. -/
theorem claim_C7_amended :
    (∀ (d : Dispatcher) (args : List String) (entry : CommandEntry)
        (rem : List String),
      isCompletionRequest args = false → hasHelpToken args = true →
      d.findCommandWithInterspersedFlags args = (some entry, rem) →
      d.Execute args = .commandHelp entry.path) ∧
    (∀ (d : Dispatcher) (args rem : List String),
      isCompletionRequest args = false → hasHelpToken args = true →
      d.findCommandWithInterspersedFlags args = (none, rem) →
      d.Execute args = .generalHelp) ∧
    dFooBar.Execute ["foo", "-C", "local", "bar", "-h"] = .commandHelp "foo bar" := by
  refine ⟨?_, ?_, by decide⟩
  · intro d args entry rem hcomp hhelp hfind
    have hne : ¬args.length = 0 := by
      intro h
      rw [List.length_eq_zero.mp h] at hhelp
      simp [hasHelpToken] at hhelp
    unfold Dispatcher.Execute
    rw [if_neg (by simp [hcomp]), if_neg hne]
    simp only [hfind]
    rw [if_pos hhelp]
  · intro d args rem hcomp hhelp hfind
    have hne : ¬args.length = 0 := by
      intro h
      rw [List.length_eq_zero.mp h] at hhelp
      simp [hasHelpToken] at hhelp
    unfold Dispatcher.Execute
    rw [if_neg (by simp [hcomp]), if_neg hne]
    simp only [hfind]
    rw [if_pos hhelp]

/-- Witness for the amended C7: a help token between the two command words of
`"foo bar"` renders that command's help. -/
theorem claim_C7_witness :
    dFooBar.Execute ["foo", "-h", "bar"] = .commandHelp "foo bar" :=
  claim_C7_amended.1 dFooBar ["foo", "-h", "bar"] entryBar ["-h"] (by decide)
    (by decide) (by decide)

end MFlags
